import Mathlib

/-!
Verification of the structured Vespa index adapter
(`marqo/core/structured_vespa_index/structured_vespa_index.py`).

The Python module translates between Marqo's typed document/query model and
Vespa's wire formats.  This file embeds the module shallowly:

* Python's dynamically typed values are modelled by `Marqo.Value`; Python
  `dict`s are insertion-ordered association lists (`Marqo.Dict`).
* Python floats are modelled by `Rat` (only moved around and compared, never
  subjected to float-specific rounding in the code under study).
* Exceptions are modelled by `Except Marqo.MarqoError`.
* The schema view (`StructuredMarqoIndex` of `marqo_index.py`, not part of
  the sources under study) is modelled from the specification's data-model
  section: four lookup maps derived from the field and tensor-field lists.
-/

set_option autoImplicit false

namespace Marqo

/-- A Python runtime value, as used by the adapter: strings, booleans,
integers, floats (modelled as rationals), lists, and insertion-ordered
dictionaries with string keys. -/
inductive Value where
  | vstr (s : String)
  | vbool (b : Bool)
  | vint (n : Int)
  | vfloat (q : Rat)
  | varr (l : List Value)
  | vobj (l : List (String × Value))

mutual

/-- Structural equality test for `Value` (decidable equality helper). -/
def Value.beq : Value → Value → Bool
  | .vstr a, .vstr b => a = b
  | .vbool a, .vbool b => a = b
  | .vint a, .vint b => a = b
  | .vfloat a, .vfloat b => a = b
  | .varr a, .varr b => Value.beqList a b
  | .vobj a, .vobj b => Value.beqObj a b
  | _, _ => false

/-- Elementwise `Value.beq` on lists. -/
def Value.beqList : List Value → List Value → Bool
  | [], [] => true
  | a :: as, b :: bs => Value.beq a b && Value.beqList as bs
  | _, _ => false

/-- Elementwise `Value.beq` on association lists. -/
def Value.beqObj : List (String × Value) → List (String × Value) → Bool
  | [], [] => true
  | (k, a) :: as, (k', b) :: bs => (k = k' : Bool) && Value.beq a b && Value.beqObj as bs
  | _, _ => false

end

mutual

theorem Value.eq_of_beq : ∀ {a b : Value}, Value.beq a b = true → a = b
  | .vstr _, .vstr _, h => by
    simp only [Value.beq, decide_eq_true_eq] at h; rw [h]
  | .vbool _, .vbool _, h => by
    simp only [Value.beq, decide_eq_true_eq] at h; rw [h]
  | .vint _, .vint _, h => by
    simp only [Value.beq, decide_eq_true_eq] at h; rw [h]
  | .vfloat _, .vfloat _, h => by
    simp only [Value.beq, decide_eq_true_eq] at h; rw [h]
  | .varr _, .varr _, h => by
    simp only [Value.beq] at h; rw [Value.eqList_of_beqList h]
  | .vobj _, .vobj _, h => by
    simp only [Value.beq] at h; rw [Value.eqObj_of_beqObj h]

theorem Value.eqList_of_beqList : ∀ {a b : List Value}, Value.beqList a b = true → a = b
  | [], [], _ => rfl
  | _ :: _, _ :: _, h => by
    simp only [Value.beqList, Bool.and_eq_true] at h
    rw [Value.eq_of_beq h.1, Value.eqList_of_beqList h.2]

theorem Value.eqObj_of_beqObj : ∀ {a b : List (String × Value)}, Value.beqObj a b = true → a = b
  | [], [], _ => rfl
  | (_, _) :: _, (_, _) :: _, h => by
    simp only [Value.beqObj, Bool.and_eq_true, decide_eq_true_eq] at h
    rw [h.1.1, Value.eq_of_beq h.1.2, Value.eqObj_of_beqObj h.2]

end

mutual

theorem Value.beq_refl : ∀ (a : Value), Value.beq a a = true
  | .vstr _ => by simp [Value.beq]
  | .vbool _ => by simp [Value.beq]
  | .vint _ => by simp [Value.beq]
  | .vfloat _ => by simp [Value.beq]
  | .varr l => by simp only [Value.beq]; exact Value.beqList_refl l
  | .vobj l => by simp only [Value.beq]; exact Value.beqObj_refl l

theorem Value.beqList_refl : ∀ (a : List Value), Value.beqList a a = true
  | [] => rfl
  | a :: as => by
    simp only [Value.beqList, Bool.and_eq_true]
    exact ⟨Value.beq_refl a, Value.beqList_refl as⟩

theorem Value.beqObj_refl : ∀ (a : List (String × Value)), Value.beqObj a a = true
  | [] => rfl
  | (_, a) :: as => by
    simp only [Value.beqObj, Bool.and_eq_true, decide_eq_true_eq]
    exact ⟨⟨trivial, Value.beq_refl a⟩, Value.beqObj_refl as⟩

end

instance : DecidableEq Value := fun a b =>
  decidable_of_iff (Value.beq a b = true)
    ⟨Value.eq_of_beq, fun h => h ▸ Value.beq_refl a⟩

/-- A Python `dict` with string keys: an association list in insertion
order, with unique keys maintained by `dinsert`. -/
abbrev Dict := List (String × Value)

/-- First value bound to key `k`, like Python `d[k]`/`d.get(k)`. -/
def dlookup (d : Dict) (k : String) : Option Value :=
  (d.find? (fun p => p.1 = k)).map (fun p => p.2)

/-- Python `k in d`. -/
def dcontains (d : Dict) (k : String) : Bool :=
  (d.find? (fun p => p.1 = k)).isSome

/-- Python `d[k] = v`: update in place when the key is present (keeping its
position), append otherwise. -/
def dinsert (d : Dict) (k : String) (v : Value) : Dict :=
  if dcontains d k then d.map (fun p => if p.1 = k then (k, v) else p)
  else d ++ [(k, v)]

/-- Python truthiness (`bool(v)`), used by `if chunk:` and `bool(value)`. -/
def pyTruthy : Value → Bool
  | .vstr s => s ≠ ""
  | .vbool b => b
  | .vint n => decide (n ≠ 0)
  | .vfloat q => decide (q ≠ 0)
  | .varr l => !l.isEmpty
  | .vobj l => !l.isEmpty

/-- Python `v == n` against an integer, with Python's numeric equality
across `bool`/`int`/`float` (used by the `value not in {0, 1}` check). -/
def pyEqInt (v : Value) (n : Int) : Bool :=
  match v with
  | .vint m => m = n
  | .vbool b => (if b then (1 : Int) else 0) = n
  | .vfloat q => q = (n : Rat)
  | _ => false

/-- Python `str(True)` / `str(False)`. -/
def pyBoolStr (b : Bool) : String := if b then "True" else "False"

/-- Python `int(v)` restricted to booleans, the only case the adapter
exercises (`int(marqo_value)` is only reached after the value was verified
to be a `bool`).  Other constructors are passed through unchanged. -/
def pyInt : Value → Value
  | .vbool b => .vint (if b then 1 else 0)
  | v => v

/-! ### Reserved field-name constants

Modelled from the spec: the adapter imports these from
`marqo.core.structured_vespa_index.common` and `marqo.core.constants`,
which are not among the sources under study.  The spec describes them as
reserved names (the id field, the running vector count, the score-modifier
map, the reserved tensor/highlight document keys); their exact spellings
are immaterial to every claim, so representative literals are used. -/

def FIELD_ID : String := "marqo__id"
def FIELD_SCORE_MODIFIERS : String := "marqo__score_modifiers"
def FIELD_VECTOR_COUNT : String := "marqo__vector_count"
def QUERY_INPUT_EMBEDDING : String := "marqo__query_embedding"
def QUERY_INPUT_SCORE_MODIFIERS_MULT_WEIGHTS : String := "marqo__mult_weights"
def QUERY_INPUT_SCORE_MODIFIERS_ADD_WEIGHTS : String := "marqo__add_weights"
def SUMMARY_ALL_VECTOR : String := "all-vector-summary"
def SUMMARY_ALL_NON_VECTOR : String := "all-non-vector-summary"
def RANK_PROFILE_EMBEDDING_SIMILARITY : String := "embedding_similarity"
def RANK_PROFILE_EMBEDDING_SIMILARITY_MODIFIERS : String := "embedding_similarity_modifiers"
def RANK_PROFILE_BM25 : String := "bm25"
def RANK_PROFILE_BM25_MODIFIERS : String := "bm25_modifiers"
def MARQO_DOC_ID : String := "_id"
def MARQO_DOC_TENSORS : String := "_tensor_facets"
def MARQO_DOC_CHUNKS : String := "_chunks"
def MARQO_DOC_EMBEDDINGS : String := "_embeddings"
def MARQO_DOC_HIGHLIGHTS : String := "_highlights"
def VESPA_DOC_ID : String := "id"
def VESPA_DOC_FIELDS : String := "fields"
def VESPA_DOC_MATCH_FEATURES : String := "matchfeatures"
def VESPA_DOC_SDDOCNAME : String := "sddocname"

/-! ### Schema view

Modelled from the spec: `StructuredMarqoIndex` (from
`marqo/core/models/marqo_index.py`) is not among the sources under study.
The spec's data-model section describes it as an immutable structure with
field and tensor-field definitions and four derived lookup maps
(`field_map`, `tensor_field_map`, `all_field_map`, `tensor_subfield_map`)
plus derived name sets (filterable, lexically searchable, score-modifier
eligible). -/

/-- Declared logical field types (`FieldType` enum). -/
inductive FieldType where
  | Text | Bool | Int | Float | ArrayText | ArrayInt | ArrayFloat
  | ImagePointer | MultimodalCombination
  deriving DecidableEq

/-- Feature flags on a field (`FieldFeature` enum); only `ScoreModifier`
is consulted by the adapter. -/
inductive FieldFeature where
  | LexicalSearch | Filter | ScoreModifier
  deriving DecidableEq

/-- A non-tensor field definition: logical name, declared type, optional
lexical and filter storage names, feature flags. -/
structure MarqoField where
  name : String
  type : FieldType
  lexical_field_name : Option String
  filter_field_name : Option String
  features : List FieldFeature
  deriving DecidableEq

/-- A tensor field definition: logical name plus the physical names of its
chunk-list field and embedding-map field. -/
structure TensorField where
  name : String
  chunk_field_name : String
  embeddings_field_name : String
  deriving DecidableEq

/-- The schema view of one structured index. -/
structure StructuredMarqoIndex where
  name : String
  schema_name : String
  fields : List MarqoField
  tensor_fields : List TensorField
  deriving DecidableEq

/-- `field_map`: logical field name → field definition. -/
def field_map (idx : StructuredMarqoIndex) (n : String) : Option MarqoField :=
  idx.fields.find? (fun f => f.name = n)

/-- Keys of `field_map` in declaration order (Python `dict` key order). -/
def field_map_keys (idx : StructuredMarqoIndex) : List String :=
  (idx.fields.map (fun f => f.name)).eraseDups

/-- `tensor_field_map`: tensor field name → tensor field definition. -/
def tensor_field_map (idx : StructuredMarqoIndex) (n : String) : Option TensorField :=
  idx.tensor_fields.find? (fun tf => tf.name = n)

/-- Keys of `tensor_field_map` in declaration order. -/
def tensor_field_map_keys (idx : StructuredMarqoIndex) : List String :=
  (idx.tensor_fields.map (fun tf => tf.name)).eraseDups

/-- `all_field_map`: union map keyed by logical names and by physical
(lexical/filter) storage names, for reverse lookup. -/
def all_field_map (idx : StructuredMarqoIndex) (n : String) : Option MarqoField :=
  idx.fields.find? (fun f =>
    f.name = n ∨ f.lexical_field_name = some n ∨ f.filter_field_name = some n)

/-- `tensor_subfield_map`: physical chunk/embedding field name → owning
tensor field. -/
def tensor_subfield_map (idx : StructuredMarqoIndex) (n : String) : Option TensorField :=
  idx.tensor_fields.find? (fun tf =>
    tf.chunk_field_name = n ∨ tf.embeddings_field_name = n)

/-- `filterable_fields_names`: names of fields with a filter storage name. -/
def filterable_fields_names (idx : StructuredMarqoIndex) : List String :=
  (idx.fields.filter (fun f => f.filter_field_name.isSome)).map (fun f => f.name)

/-- `lexically_searchable_fields_names`: names of fields with a lexical
storage name. -/
def lexically_searchable_fields_names (idx : StructuredMarqoIndex) : List String :=
  (idx.fields.filter (fun f => f.lexical_field_name.isSome)).map (fun f => f.name)

/-- `lexical_field_map` keys: physical lexical storage names. -/
def lexical_field_map_keys (idx : StructuredMarqoIndex) : List String :=
  (idx.fields.filterMap (fun f => f.lexical_field_name)).eraseDups

/-- `score_modifier_fields_names`: names of score-modifier-eligible fields. -/
def score_modifier_fields_names (idx : StructuredMarqoIndex) : List String :=
  (idx.fields.filter (fun f => f.features.contains FieldFeature.ScoreModifier)).map
    (fun f => f.name)

/-! ### Errors -/

/-- The exceptions raised by the adapter.  `invalidFieldName` is
`InvalidFieldNameError` (spec `UnknownField`), `invalidDataType` is
`InvalidDataTypeError` (spec `TypeMismatch`), `vespaDocParsing` is
`VespaDocumentParsingError` (spec `MalformedWireDocument`),
`internalError` is `InternalError` (spec `InternalInconsistency` /
`InvalidShape`), and `notImplementedError` is Python's
`NotImplementedError` (spec `NotSupported`).  Messages that interpolate
arbitrary runtime values in Python carry a best-effort rendering here; no
claim depends on those particular message texts. -/
inductive MarqoError where
  | invalidFieldName (message : String)
  | invalidDataType (message : String)
  | vespaDocParsing (message : String)
  | internalError (message : String)
  | notImplementedError
  deriving DecidableEq

deriving instance DecidableEq for Except

/-- `true` exactly on `.ok` results. -/
def exOk {α : Type} (e : Except MarqoError α) : Bool :=
  match e with
  | .ok _ => true
  | .error _ => false

/-- The error of a failed result, if any. -/
def errOf {α : Type} (e : Except MarqoError α) : Option MarqoError :=
  match e with
  | .ok _ => none
  | .error err => some err

/-- `true` exactly when the result failed with `VespaDocumentParsingError`
(the spec's `MalformedWireDocument`). -/
def isVespaParsingError {α : Type} (e : Except MarqoError α) : Bool :=
  match e with
  | .error (.vespaDocParsing _) => true
  | _ => false

/-! ### Domain and wire documents -/

/-- One tensor field's payload in a domain document: the ordered chunk
list and the ordered embedding list.  The spec's data model fixes chunks
to be strings; embeddings are opaque vector values.  `to_vespa_document`
verifies that a tensor payload carries exactly these two parts
(`_verify_marqo_tensor_field`); in this structural model that shape check
always passes. -/
structure TensorContent where
  chunks : List String
  embeddings : List Value
  deriving DecidableEq

/-- A domain ("Marqo") document: optional id, the flat fields in
insertion order, and the optional tensor section.  In Python this is one
`dict`; the reserved id and tensor keys are carried apart here, so the
flat list holds exactly the keys the marshaling loop does not `continue`
over. -/
structure MarqoDoc where
  id? : Option Value
  fields : List (String × Value)
  tensors? : Option (List (String × TensorContent))
  deriving DecidableEq

/-- A wire ("Vespa") document: the `fields` container (absent only in
malformed backend responses) and the optional top-level id. -/
structure VespaDoc where
  fields? : Option Dict
  id? : Option Value
  deriving DecidableEq

/-- The acceptable Python runtime types for a declared field type
(`_MARQO_TO_PYTHON_TYPE_MAP`, with the scalar entries read as one-element
lists). -/
def pythonTypesFor (t : FieldType) : List (Value → Bool) :=
  match t with
  | .Text => [fun v => match v with | .vstr _ => true | _ => false]
  | .Bool => [fun v => match v with | .vbool _ => true | _ => false]
  | .Int => [fun v => match v with | .vint _ => true | .vbool _ => true | _ => false]
  | .Float =>
      [fun v => match v with | .vfloat _ => true | _ => false,
       fun v => match v with | .vint _ => true | .vbool _ => true | _ => false]
  | .ArrayText => [fun v => match v with | .varr _ => true | _ => false]
  | .ArrayInt => [fun v => match v with | .varr _ => true | _ => false]
  | .ArrayFloat => [fun v => match v with | .varr _ => true | _ => false]
  | .ImagePointer => [fun v => match v with | .vstr _ => true | _ => false]
  | .MultimodalCombination => [fun v => match v with | .vobj _ => true | _ => false]

/-- `_verify_marqo_field_type`: `isinstance` against the mapped Python
type(s).  Note that a Python `bool` is an instance of `int`, so `Int` and
`Float` fields accept booleans, exactly as the source does. -/
def verify_marqo_field_type (t : FieldType) (v : Value) : Bool :=
  (pythonTypesFor t).any (fun p => p v)

/-- Message of `_verify_marqo_field_name`'s error. -/
def invalidFieldNameMsg (idx : StructuredMarqoIndex) (n : String) : String :=
  "Invalid field name " ++ n ++ " for index " ++ idx.name ++
    ". Valid field names are " ++ String.intercalate ", " (field_map_keys idx)

/-- Message of `_verify_marqo_tensor_field_name`'s error. -/
def invalidTensorFieldNameMsg (idx : StructuredMarqoIndex) (n : String) : String :=
  "Invalid tensor field name " ++ n ++ " for index " ++ idx.name ++
    ". Valid tensor field names are " ++
    String.intercalate ", " (tensor_field_map_keys idx)

/-- The wire entries one flat field contributes, in insertion order:
lexical copy, filter copy, or the logical name when neither storage name
is declared (`to_vespa_document`, field routing). -/
def flatFieldLoopStep (vf : Dict) (fld : MarqoField) (mv : Value) : Dict :=
  let vf := match fld.lexical_field_name with
    | some ln => dinsert vf ln mv
    | none => vf
  let vf := match fld.filter_field_name with
    | some fn => dinsert vf fn mv
    | none => vf
  if fld.lexical_field_name = none ∧ fld.filter_field_name = none then
    dinsert vf fld.name mv
  else vf

/-- The flat-field loop of `to_vespa_document`: verify each field's name
and type, re-encode booleans as integers, route into wire storage, and
stage score-modifier-eligible values. -/
def marshalFlatLoop (idx : StructuredMarqoIndex) :
    List (String × Value) → Dict → Dict → Except MarqoError (Dict × Dict)
  | [], vf, sm => .ok (vf, sm)
  | (n, v) :: rest, vf, sm =>
    match field_map idx n with
    | none => .error (.invalidFieldName (invalidFieldNameMsg idx n))
    | some fld =>
      if verify_marqo_field_type fld.type v then
        let mv := if fld.type = FieldType.Bool then pyInt v else v
        let vf := flatFieldLoopStep vf fld mv
        let sm := if fld.features.contains FieldFeature.ScoreModifier then
            dinsert sm fld.name mv
          else sm
        marshalFlatLoop idx rest vf sm
      else
        .error (.invalidDataType ("Invalid value for field " ++ n))

/-- The sparse positional embedding map written by `to_vespa_document`:
`{f'{i}': embeddings[i] for i in range(len(embeddings))}`. -/
def indexedEmbeddings (es : List Value) : List (String × Value) :=
  es.enum.map (fun p => (toString p.1, p.2))

/-- The tensor-field loop of `to_vespa_document`: verify each tensor field
name, store the stringified chunk list and the sparse embedding map, and
accumulate the total vector count. -/
def marshalTensorLoop (idx : StructuredMarqoIndex) :
    List (String × TensorContent) → Dict → Int → Except MarqoError (Dict × Int)
  | [], vf, cnt => .ok (vf, cnt)
  | (tn, tc) :: rest, vf, cnt =>
    match tensor_field_map idx tn with
    | none => .error (.invalidFieldName (invalidTensorFieldNameMsg idx tn))
    | some tf =>
      let cnt := cnt + tc.embeddings.length
      let vf := dinsert vf tf.chunk_field_name (.varr (tc.chunks.map .vstr))
      let vf := dinsert vf tf.embeddings_field_name (.vobj (indexedEmbeddings tc.embeddings))
      marshalTensorLoop idx rest vf cnt

/-- `StructuredVespaIndex.to_vespa_document`: marshal a domain document to
a wire document. -/
def to_vespa_document (idx : StructuredMarqoIndex) (doc : MarqoDoc) :
    Except MarqoError VespaDoc := do
  let vf0 : Dict := match doc.id? with
    | some i => dinsert [] FIELD_ID i
    | none => []
  let (vf1, sm) ← marshalFlatLoop idx doc.fields vf0 []
  let (vf2, cnt) ← marshalTensorLoop idx (doc.tensors?.getD []) vf1 0
  let vf3 := dinsert vf2 FIELD_VECTOR_COUNT (.vint cnt)
  let vf4 := if sm.length > 0 then dinsert vf3 FIELD_SCORE_MODIFIERS (.vobj sm) else vf3
  .ok { fields? := some vf4, id? := doc.id? }

/-! ### Highlight extraction -/

/-- The `closest(...)` match-feature key for a tensor field. -/
def closestFeatureKey (tf : TensorField) : String :=
  "closest(" ++ tf.embeddings_field_name ++ ")"

/-- The `distance(field,...)` match-feature key for a tensor field. -/
def distanceFeatureKey (tf : TensorField) : String :=
  "distance(field," ++ tf.embeddings_field_name ++ ")"

/-- Python subscript `v[k]` with a string key; a failure is an uncaught
`KeyError`/`TypeError` in the source, modelled as `internalError`. -/
def pySubscript (v : Value) (k : String) : Except MarqoError Value :=
  match v with
  | .vobj l =>
    match dlookup l k with
    | some x => .ok x
    | none => .error (.internalError ("KeyError: " ++ k))
  | _ => .error (.internalError "TypeError: not subscriptable")

/-- Python `len(v)`; a failure is an uncaught `TypeError`. -/
def pyLen (v : Value) : Except MarqoError Nat :=
  match v with
  | .vstr s => .ok s.length
  | .varr l => .ok l.length
  | .vobj l => .ok l.length
  | _ => .error (.internalError "TypeError: has no len()")

/-- Numeric view of a value (`bool` counts as an integer, as in Python). -/
def asRatNum : Value → Option Rat
  | .vint n => some (n : Rat)
  | .vfloat q => some q
  | .vbool b => some (if b then 1 else 0)
  | _ => none

/-- Python `a < b`; comparing non-numbers is an uncaught `TypeError`. -/
def pyLt (a b : Value) : Except MarqoError Bool :=
  match asRatNum a, asRatNum b with
  | some x, some y => .ok (x < y)
  | _, _ => .error (.internalError "TypeError: unsupported comparison")

/-- The field-selection loop of `_extract_highlights`: for each tensor
field with a non-empty closest-match cell set, require the paired distance
feature and track the pair with the strictly smallest distance (first
field wins ties).  The accumulator mirrors `(min_distance,
closest_tensor_field)`, which the source always updates together. -/
def selectClosestLoop (mf : Dict) :
    List TensorField → Option (Value × TensorField) →
    Except MarqoError (Option (Value × TensorField))
  | [], acc => .ok acc
  | tf :: rest, acc =>
    if dcontains mf (closestFeatureKey tf) then do
      let cv ← match dlookup mf (closestFeatureKey tf) with
        | some x => Except.ok x
        | none => Except.error (.internalError "KeyError: closest feature")
      let cells ← pySubscript cv "cells"
      let n ← pyLen cells
      if n > 0 then
        match dlookup mf (distanceFeatureKey tf) with
        | none =>
          .error (.vespaDocParsing ("Expected " ++ distanceFeatureKey tf ++
            " in match features but it was not found"))
        | some dv => do
          let acc' ← match acc with
            | none => Except.ok (some (dv, tf))
            | some (mv, _) => do
              let lt ← pyLt dv mv
              Except.ok (if lt then some (dv, tf) else acc)
          selectClosestLoop mf rest acc'
      else selectClosestLoop mf rest acc
    else selectClosestLoop mf rest acc

/-- Digits-only parse of a character list (base 10). -/
def charsToNat? (cs : List Char) : Option Nat :=
  if cs ≠ [] ∧ cs.all Char.isDigit then
    some (cs.foldl (fun n c => n * 10 + (c.toNat - 48)) 0)
  else none

/-- Python `int(s)` on a string: optional sign and digits, surrounding
whitespace allowed; failure is the caught `ValueError`.  Implemented
structurally over the character list so that proofs can evaluate it. -/
def parseIntStr (s : String) : Option Int :=
  let t := s.data.dropWhile Char.isWhitespace
  let t := (t.reverse.dropWhile Char.isWhitespace).reverse
  match t with
  | '-' :: rest => (charsToNat? rest).map (fun n => -(n : Int))
  | _ => (charsToNat? t).map (fun n => (n : Int))

/-- Indexing with Python semantics: negative indices count from the end. -/
def pyIndex {α : Type} (l : List α) (i : Int) : Option α :=
  let j := if i < 0 then i + l.length else i
  if 0 ≤ j ∧ j < l.length then l.get? j.toNat else none

/-- `StructuredVespaIndex._extract_highlights`: select the tensor field
with the smallest reported distance among those with a non-empty
closest-match cell set, read the chunk index from the first cell key, and
return at most one `{field name: chunk}` highlight.  A missing chunk-list
field (and a falsy chunk) yields the empty list. -/
def extract_highlights (idx : StructuredMarqoIndex) (fields : Dict) :
    Except MarqoError (List (String × Value)) := do
  let mfv ← match dlookup fields VESPA_DOC_MATCH_FEATURES with
    | some x => Except.ok x
    | none => Except.error (.internalError "KeyError: matchfeatures")
  let mf ← match mfv with
    | .vobj m => Except.ok m
    | _ => Except.error (.internalError "TypeError: match features not a dict")
  let winner? ← selectClosestLoop mf idx.tensor_fields none
  match winner? with
  | none =>
    .error (.vespaDocParsing ("Failed to extract highlights from Vespa document. " ++
      "Could not find closest tensor field in response"))
  | some (_, ctf) => do
    let cv ← match dlookup mf (closestFeatureKey ctf) with
      | some x => Except.ok x
      | none => Except.error (.internalError "KeyError: closest feature")
    let cells ← pySubscript cv "cells"
    let chunkIndexStr ← match cells with
      | .vobj ((key, _) :: _) => Except.ok key
      | .vobj [] => Except.error (.internalError "StopIteration")
      | _ => Except.error (.internalError "TypeError: cells is not a dict")
    let chunkIndex ← match parseIntStr chunkIndexStr with
      | some i => Except.ok i
      | none =>
        Except.error (.vespaDocParsing ("Expected integer as chunk index, but found " ++
          chunkIndexStr))
    let chunk? ← (if dcontains fields ctf.chunk_field_name then
        match dlookup fields ctf.chunk_field_name with
        | some (.varr l) =>
          match pyIndex l chunkIndex with
          | some c => Except.ok (some c)
          | none =>
            Except.error (.vespaDocParsing ("Cannot extract chunk value from " ++
              ctf.chunk_field_name))
        | some (.vstr s) =>
          match pyIndex s.data chunkIndex with
          | some c => Except.ok (some (Value.vstr (String.singleton c)))
          | none =>
            Except.error (.vespaDocParsing ("Cannot extract chunk value from " ++
              ctf.chunk_field_name))
        | _ =>
          Except.error (.vespaDocParsing ("Cannot extract chunk value from " ++
            ctf.chunk_field_name))
      else
        Except.ok none : Except MarqoError (Option Value))
    match chunk? with
    | some c => if pyTruthy c then .ok [(ctf.name, c)] else .ok []
    | none => .ok []

/-! ### Wire-to-domain unmarshaling -/

/-- Python hashability of a wire value: lists and dicts are unhashable,
so testing their membership in a set raises `TypeError`. -/
def pyHashable : Value → Bool
  | .varr _ => false
  | .vobj _ => false
  | _ => true

/-- Decoding of a boolean wire value (`to_marqo_document`, flat-field
branch): the source tests set membership of 0 and 1, which on an
unhashable value (list or dict) itself raises an uncaught `TypeError`
(modelled as `internalError`); a hashable wire value equal to 0 or 1
under Python's numeric equality decodes via `bool(value)`; any other
hashable value is a parsing error. -/
def decodeWireValue (fld : MarqoField) (v : Value) : Except MarqoError Value :=
  if fld.type = FieldType.Bool then
    if pyHashable v then
      if pyEqInt v 0 || pyEqInt v 1 then .ok (.vbool (pyTruthy v))
      else
        .error (.vespaDocParsing ("Vespa document has invalid value for boolean field " ++
          fld.name ++ ". Expected 0 or 1"))
    else .error (.internalError "TypeError: unhashable type")
  else .ok v

/-- `list(value['blocks'].values())`: `some` with the block map's values
in map order when the wire value is a dict with a `blocks` dict entry;
`none` models the caught `KeyError`/`AttributeError`/`TypeError` on every
other shape. -/
def decodeEmbeddings (v : Value) : Option (List Value) :=
  match v with
  | .vobj m =>
    match dlookup m "blocks" with
    | some (.vobj bm) => some (bm.map (fun p => p.2))
    | some _ => none
    | none => none
  | _ => none

/-- Nested update `marqo_document[TENSORS][tensor_name][key] = v`,
creating the intermediate dicts when absent. -/
def setTensorSub (md : Dict) (tname key : String) (v : Value) : Dict :=
  let tensors := match dlookup md MARQO_DOC_TENSORS with
    | some (.vobj t) => t
    | _ => []
  let sub := match dlookup tensors tname with
    | some (.vobj s) => s
    | _ => []
  let sub' := dinsert sub key v
  let tensors' := dinsert tensors tname (.vobj sub')
  dinsert md MARQO_DOC_TENSORS (.vobj tensors')

/-- One iteration of `to_marqo_document`'s field loop, dispatching a wire
field by name: plain field (with boolean decoding and the
duplicate-consistency check), tensor sub-field (chunks or embeddings), id
field, ignorable reserved fields, otherwise an unknown-field error. -/
def parseWireField (idx : StructuredMarqoIndex) (md : Dict) (k : String) (v : Value) :
    Except MarqoError Dict :=
  match all_field_map idx k with
  | some fld => do
    let v' ← decodeWireValue fld v
    match dlookup md fld.name with
    | some existing =>
      if existing = v' then .ok md
      else
        .error (.vespaDocParsing ("Vespa document has different values for Marqo field " ++
          fld.name))
    | none => .ok (dinsert md fld.name v')
  | none =>
    match tensor_subfield_map idx k with
    | some tf =>
      if k = tf.chunk_field_name then
        .ok (setTensorSub md tf.name MARQO_DOC_CHUNKS v)
      else if k = tf.embeddings_field_name then
        match decodeEmbeddings v with
        | some l => .ok (setTensorSub md tf.name MARQO_DOC_EMBEDDINGS (.varr l))
        | none => .error (.vespaDocParsing ("Cannot parse embeddings field " ++ k))
      else .error (.vespaDocParsing ("Unexpected tensor subfield " ++ k))
    | none =>
      if k = FIELD_ID then .ok (dinsert md MARQO_DOC_ID v)
      else if k = VESPA_DOC_MATCH_FEATURES then .ok md
      else if k = VESPA_DOC_SDDOCNAME ∨ k = FIELD_SCORE_MODIFIERS ∨
          k = FIELD_VECTOR_COUNT ∨ k = VESPA_DOC_MATCH_FEATURES then .ok md
      else
        .error (.vespaDocParsing ("Unknown field " ++ k ++ " for index " ++ idx.name ++
          " in Vespa document"))

/-- The field loop of `to_marqo_document` over the wire fields in order. -/
def parseWireFields (idx : StructuredMarqoIndex) :
    List (String × Value) → Dict → Except MarqoError Dict
  | [], md => .ok md
  | (k, v) :: rest, md => do
    let md' ← parseWireField idx md k v
    parseWireFields idx rest md'

/-- `StructuredVespaIndex.to_marqo_document`: unmarshal a wire document
(raising on a missing `fields` container), optionally attaching extracted
highlights when match features are present. -/
def to_marqo_document (idx : StructuredMarqoIndex) (vd : VespaDoc)
    (return_highlights : Bool) : Except MarqoError Dict :=
  match vd.fields? with
  | none => .error (.vespaDocParsing ("Vespa document is missing " ++ VESPA_DOC_FIELDS ++
      " field"))
  | some fields => do
    let md ← parseWireFields idx fields []
    if return_highlights && dcontains fields VESPA_DOC_MATCH_FEATURES then do
      let hl ← extract_highlights idx fields
      pure (dinsert md MARQO_DOC_HIGHLIGHTS (.varr (hl.map (fun p => Value.vobj [p]))))
    else pure md

/-- The transformation the backend applies to a stored document before it
is read back: each embeddings tensor field is reported as a sparse block
map under a `blocks` wrapper.  Used to state the round-trip property. -/
def wrapBlocks (idx : StructuredMarqoIndex) (vd : VespaDoc) : VespaDoc :=
  { vd with
    fields? := vd.fields?.map (fun fs => fs.map (fun p =>
      if idx.tensor_fields.any (fun tf => tf.embeddings_field_name = p.1) then
        (p.1, Value.vobj [("blocks", p.2)])
      else p)) }

/-! ### Filter expression trees

Modelled from the spec: `marqo.core.search.search_filter` is not among the
sources under study.  The spec's data model describes the tree as Operator
nodes (`And`/`Or`, binary), Modifier nodes (`Not`, unary) and Term leaves
(field name with either an equality value or a numeric range with optional
bounds). -/

/-- A filter expression tree node. -/
inductive FilterNode where
  | and (left right : FilterNode)
  | or (left right : FilterNode)
  | not (modified : FilterNode)
  | equality (field : String) (value : String)
  | range (field : String) (lower upper : Option Int)
  deriving DecidableEq

/-- Python `s.lower()` restricted to ASCII (the adapter only compares
against the literals `true`/`false`).  Implemented structurally over the
character list so that proofs can evaluate it. -/
def pyLower (s : String) : String := String.mk (s.data.map Char.toLower)

/-- The `escape` helper of `_get_filter_term`: double backslashes, escape
double quotes. -/
def escapeFilterValue (s : String) : String :=
  s.data.foldl (fun acc c =>
    if c = '\\' then acc ++ "\\\\"
    else if c = '"' then acc ++ "\\\""
    else acc ++ String.singleton c) ""

/-- Python rendering of an optional string in an f-string (`None` when
absent). -/
def optStr : Option String → String
  | some s => s
  | none => "None"

/-- Message of the unknown-filterable-field error. -/
def unknownFilterFieldMsg (idx : StructuredMarqoIndex) (n : String) : String :=
  "Index " ++ idx.name ++ " has no filterable field " ++ n ++
    ". Available filterable fields are: " ++
    String.intercalate ", " (filterable_fields_names idx)

/-- `tree_to_filter_string` of `_get_filter_term`: recursively render a
filter tree with explicit parenthesization, checking Term fields against
the filterable set. -/
def tree_to_filter_string (idx : StructuredMarqoIndex) : FilterNode → Except MarqoError String
  | .and l r => do
    let sl ← tree_to_filter_string idx l
    let sr ← tree_to_filter_string idx r
    .ok ("(" ++ sl ++ " AND " ++ sr ++ ")")
  | .or l r => do
    let sl ← tree_to_filter_string idx l
    let sr ← tree_to_filter_string idx r
    .ok ("(" ++ sl ++ " OR " ++ sr ++ ")")
  | .not m => do
    let s ← tree_to_filter_string idx m
    .ok ("!(" ++ s ++ ")")
  | .equality f v =>
    if (filterable_fields_names idx).contains f then
      match all_field_map idx f with
      | some fld =>
        let nv := if fld.type = FieldType.Bool then
            if pyLower v = "true" then "1"
            else if pyLower v = "false" then "0"
            else v
          else v
        .ok (optStr fld.filter_field_name ++ " contains \"" ++ escapeFilterValue nv ++ "\"")
      | none => .error (.internalError ("KeyError: " ++ f))
    else .error (.invalidFieldName (unknownFilterFieldMsg idx f))
  | .range f lo hi =>
    if (filterable_fields_names idx).contains f then
      match all_field_map idx f with
      | some fld =>
        let fn := optStr fld.filter_field_name
        match lo, hi with
        | some l, some u =>
          .ok ("(" ++ fn ++ " >= " ++ toString l ++ " AND " ++ fn ++ " <= " ++ toString u ++ ")")
        | some l, none => .ok (fn ++ " >= " ++ toString l)
        | none, some u => .ok (fn ++ " <= " ++ toString u)
        | none, none => .error (.internalError "RangeTerm has no lower or upper bound")
      | none => .error (.internalError ("KeyError: " ++ f))
    else .error (.invalidFieldName (unknownFilterFieldMsg idx f))

/-! ### Domain queries -/

/-- Kind of a score modifier. -/
inductive ScoreModifierType where
  | Multiply | Add
  deriving DecidableEq

/-- A per-field ranking-score modifier. -/
structure ScoreModifier where
  field : String
  weight : Rat
  type : ScoreModifierType
  deriving DecidableEq

/-- Attributes common to every query kind (`MarqoQuery` base model,
modelled from the spec since `marqo_query.py` is not among the sources
under study). -/
structure QueryBase where
  limit : Int
  offset : Int
  attributes_to_retrieve : Option (List String)
  searchable_attributes : Option (List String)
  filter : Option FilterNode
  score_modifiers : Option (List ScoreModifier)
  expose_facets : Bool
  deriving DecidableEq

/-- The tensor-query-specific attributes. -/
structure TensorQueryData where
  vector_query : List Rat
  ef_search : Option Int
  approximate : Bool
  deriving DecidableEq

/-- The lexical-query-specific attributes. -/
structure LexicalQueryData where
  or_phrases : List String
  and_phrases : List String
  deriving DecidableEq

/-- A domain query.  Modelled from the spec as closed disjoint variants
(`Tensor`/`Lexical`/`Hybrid`), matching the spec's polymorphic query
model and its design note that the kinds are a closed sum. -/
inductive MarqoQuery where
  | tensor (base : QueryBase) (data : TensorQueryData)
  | lexical (base : QueryBase) (data : LexicalQueryData)
  | hybrid (base : QueryBase)
  deriving DecidableEq

/-- The common attributes of a query. -/
def MarqoQuery.base : MarqoQuery → QueryBase
  | .tensor b _ => b
  | .lexical b _ => b
  | .hybrid b => b

/-- Replace the attributes-to-retrieve list (models the in-place
`append`/`extend` mutation of `to_vespa_query`). -/
def MarqoQuery.setAttributes : MarqoQuery → List String → MarqoQuery
  | .tensor b t, l => .tensor { b with attributes_to_retrieve := some l } t
  | .lexical b d, l => .lexical { b with attributes_to_retrieve := some l } d
  | .hybrid b, l => .hybrid { b with attributes_to_retrieve := some l }

/-! ### Query compilation -/

/-- `_get_score_modifiers`: partition the modifiers into multiplicative
and additive weight maps; `none` when the modifier list is absent or
empty (Python falsiness of `[]`). -/
def get_score_modifiers (b : QueryBase) : Option (List (String × Value)) :=
  match b.score_modifiers with
  | some mods =>
    if mods.isEmpty then none
    else
      let (mult, add) := mods.foldl (fun (acc : Dict × Dict) m =>
        match m.type with
        | .Multiply => (dinsert acc.1 m.field (.vfloat m.weight), acc.2)
        | .Add => (acc.1, dinsert acc.2 m.field (.vfloat m.weight))) ([], [])
      some [(QUERY_INPUT_SCORE_MODIFIERS_MULT_WEIGHTS, .vobj mult),
            (QUERY_INPUT_SCORE_MODIFIERS_ADD_WEIGHTS, .vobj add)]
  | none => none

/-- One nearest-neighbor clause of `_get_tensor_search_term`. -/
def nnClause (target additional : Int) (approx : Bool) (embName : String) : String :=
  "(" ++ "\x7b" ++ "targetHits:" ++ toString target ++ ", approximate:" ++
    pyBoolStr approx ++ ", hnsw.exploreAdditionalHits:" ++ toString additional ++
    "\x7d" ++ "nearestNeighbor(" ++ embName ++ ", " ++ QUERY_INPUT_EMBEDDING ++ ")" ++ ")"

/-- `_get_tensor_search_term`: the nearest-neighbor match predicate with
the target and additional exploration breadths derived from
limit/offset/ef_search. -/
def get_tensor_search_term (idx : StructuredMarqoIndex) (b : QueryBase)
    (t : TensorQueryData) : String :=
  let fields_to_search := match b.searchable_attributes with
    | some atts => atts.filter (fun f => (tensor_field_map idx f).isSome)
    | none => tensor_field_map_keys idx
  let target_hits := match t.ef_search with
    | some ef => min (b.limit + b.offset) ef
    | none => b.limit + b.offset
  let additional_hits := match t.ef_search with
    | some ef => max (ef - (b.limit + b.offset)) 0
    | none => 0
  let terms := fields_to_search.filterMap (fun f =>
    (tensor_field_map idx f).map (fun tf =>
      nnClause target_hits additional_hits t.approximate tf.embeddings_field_name))
  if terms.isEmpty then "" else "(" ++ String.intercalate " OR " terms ++ ")"

/-- `_get_filter_term`: render the query's filter tree, `none` when the
query has no filter. -/
def get_filter_term (idx : StructuredMarqoIndex) (b : QueryBase) :
    Except MarqoError (Option String) :=
  match b.filter with
  | some root => (tree_to_filter_string idx root).map some
  | none => .ok none

/-- `_get_select_attributes`: the joined attribute list, or `*`. -/
def get_select_attributes (b : QueryBase) : String :=
  match b.attributes_to_retrieve with
  | some atts => String.intercalate ", " atts
  | none => "*"

/-- Message of the unknown-tensor-field error in the tensor query path. -/
def noTensorFieldMsg (idx : StructuredMarqoIndex) (att : String) : String :=
  "Index " ++ idx.name ++ " has no tensor field " ++ att ++
    ". Available tensor fields are: " ++
    String.intercalate ", " (tensor_field_map_keys idx)

/-- `_to_vespa_tensor_query`: validate searchable attributes, build the
match predicate, filter clause, query features and ranking selection, and
assemble the backend query object.  The final `None`-strip of the source
is vacuous here because no assembled value is `None`. -/
def to_vespa_tensor_query (idx : StructuredMarqoIndex) (b : QueryBase)
    (t : TensorQueryData) : Except MarqoError Dict := do
  let fields_to_search ← match b.searchable_attributes with
    | some atts =>
      match atts.find? (fun a => (tensor_field_map idx a).isNone) with
      | some bad => Except.error (.invalidFieldName (noTensorFieldMsg idx bad))
      | none => Except.ok atts
    | none => Except.ok (tensor_field_map_keys idx)
  let tensor_term := if !fields_to_search.isEmpty then get_tensor_search_term idx b t
    else "False"
  let filter_raw ← get_filter_term idx b
  let filter_term := match filter_raw with
    | some s => if s ≠ "" then " AND " ++ s else ""
    | none => ""
  let select_attributes := get_select_attributes b
  let summary := if b.expose_facets then SUMMARY_ALL_VECTOR else SUMMARY_ALL_NON_VECTOR
  let score_modifiers := get_score_modifiers b
  let ranking := if score_modifiers.isSome then RANK_PROFILE_EMBEDDING_SIMILARITY_MODIFIERS
    else RANK_PROFILE_EMBEDDING_SIMILARITY
  let query_inputs : Dict :=
    dinsert [] QUERY_INPUT_EMBEDDING (.varr (t.vector_query.map .vfloat))
  let query_inputs := fields_to_search.foldl (fun acc f => dinsert acc f (.vint 1)) query_inputs
  let query_inputs := match score_modifiers with
    | some sm => sm.foldl (fun acc p => dinsert acc p.1 p.2) query_inputs
    | none => query_inputs
  let yql := "select " ++ select_attributes ++ " from " ++ idx.schema_name ++ " where " ++
    tensor_term ++ filter_term
  let query : Dict :=
    [("yql", .vstr yql),
     ("model_restrict", .vstr idx.schema_name),
     ("hits", .vint b.limit),
     ("offset", .vint b.offset),
     ("query_features", .vobj query_inputs),
     ("presentation.summary", .vstr summary),
     ("ranking", .vstr ranking)]
  let query := if !t.approximate then
      dinsert (dinsert query "ranking.softtimeout.enable" (.vbool false)) "timeout" (.vstr "300s")
    else query
  .ok query

/-- Message of the unknown-lexically-searchable-field error. -/
def noLexicalFieldMsg (idx : StructuredMarqoIndex) (att : String) : String :=
  "Index " ++ idx.name ++ " has no lexically searchable field " ++ att ++
    ". Available lexically searchable fields are: " ++
    String.intercalate ", " (lexically_searchable_fields_names idx)

/-- `_get_lexical_contains_term`: one `contains` predicate per phrase,
OR-combined over the searchable fields' lexical storage names, or the
implicit full-text `default` predicate. -/
def get_lexical_contains_term (idx : StructuredMarqoIndex) (phrase : String)
    (b : QueryBase) : String :=
  match b.searchable_attributes with
  | some atts =>
    String.intercalate " OR " (atts.map (fun field =>
      optStr ((field_map idx field).bind (fun f => f.lexical_field_name)) ++
        " contains \"" ++ phrase ++ "\""))
  | none => "default contains \"" ++ phrase ++ "\""

/-- `_get_lexical_search_term`: weak-AND over the disjunctive phrases,
strict AND over the conjunctive phrases, the latter parenthesized and
AND-ed after the former when both are present. -/
def get_lexical_search_term (idx : StructuredMarqoIndex) (b : QueryBase)
    (l : LexicalQueryData) : String :=
  let or_terms := if !l.or_phrases.isEmpty then
      "weakAnd(" ++ String.intercalate ", "
        (l.or_phrases.map (fun p => get_lexical_contains_term idx p b)) ++ ")"
    else ""
  let and_terms := if !l.and_phrases.isEmpty then
      let conj := String.intercalate " AND "
        (l.and_phrases.map (fun p => get_lexical_contains_term idx p b))
      if or_terms ≠ "" then " AND (" ++ conj ++ ")" else conj
    else ""
  or_terms ++ and_terms

/-- `_to_vespa_lexical_query`: the lexical counterpart of the tensor
compilation path. -/
def to_vespa_lexical_query (idx : StructuredMarqoIndex) (b : QueryBase)
    (l : LexicalQueryData) : Except MarqoError Dict := do
  let fields_to_search ← match b.searchable_attributes with
    | some atts =>
      match atts.find? (fun a => !(lexically_searchable_fields_names idx).contains a) with
      | some bad => Except.error (.invalidFieldName (noLexicalFieldMsg idx bad))
      | none => Except.ok atts
    | none => Except.ok (lexical_field_map_keys idx)
  let lexical_term := if !fields_to_search.isEmpty then get_lexical_search_term idx b l
    else "False"
  let filter_raw ← get_filter_term idx b
  let filter_term := match filter_raw with
    | some s => if s ≠ "" then " AND " ++ s else ""
    | none => ""
  let select_attributes := get_select_attributes b
  let summary := if b.expose_facets then SUMMARY_ALL_VECTOR else SUMMARY_ALL_NON_VECTOR
  let score_modifiers := get_score_modifiers b
  let ranking := if score_modifiers.isSome then RANK_PROFILE_BM25_MODIFIERS
    else RANK_PROFILE_BM25
  let query_inputs : Dict :=
    fields_to_search.foldl (fun acc f => dinsert acc f (.vint 1)) []
  let query_inputs := match score_modifiers with
    | some sm => sm.foldl (fun acc p => dinsert acc p.1 p.2) query_inputs
    | none => query_inputs
  let yql := "select " ++ select_attributes ++ " from " ++ idx.schema_name ++ " where " ++
    lexical_term ++ filter_term
  .ok [("yql", .vstr yql),
       ("model_restrict", .vstr idx.schema_name),
       ("hits", .vint b.limit),
       ("offset", .vint b.offset),
       ("query_features", .vobj query_inputs),
       ("presentation.summary", .vstr summary),
       ("ranking", .vstr ranking)]

/-- Message of the unknown-attribute error in the shared pre-check. -/
def noFieldMsg (idx : StructuredMarqoIndex) (att : String) : String :=
  "Index " ++ idx.name ++ " has no field " ++ att ++ ". Available fields are: " ++
    String.intercalate ", " (field_map_keys idx)

/-- Message of the unknown-score-modifier-field error. -/
def noScoreModifierFieldMsg (idx : StructuredMarqoIndex) (f : String) : String :=
  "Index " ++ idx.name ++ " has no score modifier field " ++ f ++
    ". Available score modifier fields are: " ++
    String.intercalate ", " (score_modifier_fields_names idx)

/-- The attributes-to-retrieve pre-check loop of `to_vespa_query`: each
attribute must resolve in `field_map`; tensor attributes contribute their
chunk-storage names. -/
def attributesLoop (idx : StructuredMarqoIndex) :
    List String → List String → Except MarqoError (List String)
  | [], chunkNames => .ok chunkNames
  | att :: rest, chunkNames =>
    if (field_map idx att).isNone then .error (.invalidFieldName (noFieldMsg idx att))
    else
      let chunkNames := match tensor_field_map idx att with
        | some tf => chunkNames ++ [tf.chunk_field_name]
        | none => chunkNames
      attributesLoop idx rest chunkNames

/-- The score-modifier pre-check of `to_vespa_query`. -/
def verifyScoreModifiers (idx : StructuredMarqoIndex) (b : QueryBase) :
    Except MarqoError Unit :=
  match b.score_modifiers with
  | some mods =>
    match mods.find? (fun m => !(score_modifier_fields_names idx).contains m.field) with
    | some m => .error (.invalidFieldName (noScoreModifierFieldMsg idx m.field))
    | none => .ok ()
  | none => .ok ()

/-- `StructuredVespaIndex.to_vespa_query`: run the shared pre-checks and
dispatch on the query kind.  The source mutates its argument in place
(`marqo_query.attributes_to_retrieve.append/extend`); the returned
`MarqoQuery` is that post-call state of the argument. -/
def to_vespa_query (idx : StructuredMarqoIndex) (q : MarqoQuery) :
    Except MarqoError (MarqoQuery × Dict) := do
  let q' ← match q.base.attributes_to_retrieve with
    | some atts => do
      let chunkNames ← attributesLoop idx atts []
      Except.ok (q.setAttributes (atts ++ [FIELD_ID] ++ chunkNames))
    | none => Except.ok q
  let _ ← verifyScoreModifiers idx q'.base
  match q' with
  | .tensor b t => do
    let out ← to_vespa_tensor_query idx b t
    .ok (q', out)
  | .lexical b l => do
    let out ← to_vespa_lexical_query idx b l
    .ok (q', out)
  | .hybrid _ => .error .notImplementedError

/-! ### Concrete fixtures used by witnesses and counterexamples -/

/-- A small structured index: a dual-stored text field, a filter-only
boolean field, a score-modifier integer field, and a text field that is
also a tensor field. -/
def idxA : StructuredMarqoIndex :=
  { name := "idxA", schema_name := "schA",
    fields :=
      [ { name := "title", type := FieldType.Text,
          lexical_field_name := some "marqo__lexical_title",
          filter_field_name := some "marqo__filter_title",
          features := [FieldFeature.LexicalSearch, FieldFeature.Filter] },
        { name := "active", type := FieldType.Bool,
          lexical_field_name := none,
          filter_field_name := some "marqo__filter_active",
          features := [FieldFeature.Filter] },
        { name := "rating", type := FieldType.Int,
          lexical_field_name := none, filter_field_name := none,
          features := [FieldFeature.ScoreModifier] },
        { name := "caption", type := FieldType.Text,
          lexical_field_name := some "marqo__lexical_caption",
          filter_field_name := none,
          features := [FieldFeature.LexicalSearch] } ],
    tensor_fields :=
      [ { name := "caption", chunk_field_name := "marqo__chunks_caption",
          embeddings_field_name := "marqo__embeddings_caption" } ] }

/-- The tensor field of `idxA`. -/
def tfCaption : TensorField :=
  { name := "caption", chunk_field_name := "marqo__chunks_caption",
    embeddings_field_name := "marqo__embeddings_caption" }

/-- A domain document exercising every field kind of `idxA`. -/
def docA : MarqoDoc :=
  { id? := some (.vstr "doc1"),
    fields := [("title", .vstr "hello"), ("active", .vbool true),
               ("rating", .vint 4), ("caption", .vstr "a cat")],
    tensors? := some [("caption",
      { chunks := ["a cat"],
        embeddings := [.varr [.vfloat 1, .vfloat 2]] })] }

/-- A neutral query base: no optional parts, limit 10, offset 0. -/
def qbPlain : QueryBase :=
  { limit := 10, offset := 0, attributes_to_retrieve := none,
    searchable_attributes := none, filter := none, score_modifiers := none,
    expose_facets := false }

/-! ### Small helper lemmas -/

theorem intercalate_singleton (s a : String) : String.intercalate s [a] = a := rfl

@[simp] theorem exBindOk {α β : Type} (x : α) (f : α → Except MarqoError β) :
    (Except.ok x >>= f) = f x := rfl

@[simp] theorem exBindErr {α β : Type} (e : MarqoError) (f : α → Except MarqoError β) :
    ((Except.error e : Except MarqoError α) >>= f) = .error e := rfl

theorem verify_sm_mk (idx : StructuredMarqoIndex) (b : QueryBase) (l : Option (List String)) :
    verifyScoreModifiers idx { b with attributes_to_retrieve := l } =
      verifyScoreModifiers idx b := rfl

/-- Unfolding of `to_vespa_query` on a hybrid query: the attribute
pre-check, the score-modifier pre-check, then the unconditional
not-implemented error of `_to_vespa_hybrid_query`. -/
theorem to_vespa_query_hybrid (idx : StructuredMarqoIndex) (b : QueryBase) :
    to_vespa_query idx (MarqoQuery.hybrid b) =
      (match b.attributes_to_retrieve with
        | some atts => (attributesLoop idx atts []).bind (fun _ => Except.ok ())
        | none => Except.ok ()).bind (fun _ =>
        (verifyScoreModifiers idx b).bind (fun _ =>
          Except.error MarqoError.notImplementedError)) := by
  have hbase : (MarqoQuery.hybrid b).base = b := rfl
  rw [to_vespa_query, hbase]
  rcases hA : b.attributes_to_retrieve with _ | atts
  · cases hV : verifyScoreModifiers idx b <;>
      simp [Except.bind, MarqoQuery.base, hV]
  · rcases hL : attributesLoop idx atts [] with e | cn
    · simp [hL, Except.bind]
    · cases hV : verifyScoreModifiers idx b <;>
        simp [hL, Except.bind, MarqoQuery.setAttributes, MarqoQuery.base, verify_sm_mk, hV]

/-! ## Claim C9 — hybrid queries fail with the not-supported error -/

/-- C9: for every hybrid query, `to_vespa_query` never produces a
compiled query (no silent degradation to tensor or lexical compilation),
and whenever the shared pre-checks pass it fails with exactly the
not-implemented error (`_to_vespa_hybrid_query` raises
`NotImplementedError`). -/
theorem hybrid_query_not_supported (idx : StructuredMarqoIndex) (b : QueryBase) :
    (∀ res, to_vespa_query idx (MarqoQuery.hybrid b) ≠ Except.ok res) ∧
    (verifyScoreModifiers idx b = .ok () →
      (b.attributes_to_retrieve = none ∨
        ∃ atts cn, b.attributes_to_retrieve = some atts ∧
          attributesLoop idx atts [] = .ok cn) →
      to_vespa_query idx (MarqoQuery.hybrid b) = .error MarqoError.notImplementedError) := by
  constructor
  · intro res h
    rw [to_vespa_query_hybrid] at h
    rcases hA : b.attributes_to_retrieve with _ | atts
    · rw [hA] at h
      rcases hV : verifyScoreModifiers idx b with e | u
      · simp [hV, Except.bind] at h
      · simp [hV, Except.bind] at h
    · rw [hA] at h
      rcases hL : attributesLoop idx atts [] with e | cn
      · simp [hL, Except.bind] at h
      · rcases hV : verifyScoreModifiers idx b with e | u
        · simp [hL, hV, Except.bind] at h
        · simp [hL, hV, Except.bind] at h
  · intro hsm hpre
    rw [to_vespa_query_hybrid]
    rcases hpre with hA | ⟨atts, cn, hA, hL⟩
    · rw [hA]
      simp [hsm, Except.bind]
    · rw [hA]
      simp [hL, hsm, Except.bind]

/-- C9 witness: a concrete hybrid query on `idxA` with a valid
attributes-to-retrieve list fails with the not-implemented error. -/
theorem hybrid_query_not_supported_witness :
    to_vespa_query idxA (MarqoQuery.hybrid
      { qbPlain with attributes_to_retrieve := some ["title"] }) =
      .error MarqoError.notImplementedError :=
  (hybrid_query_not_supported idxA
    { qbPlain with attributes_to_retrieve := some ["title"] }).2
    (by decide) (Or.inr ⟨["title"], [], rfl, by decide⟩)

/-! ## Claim C5 — nearest-neighbor search breadths -/

/-- C5: for a tensor query searching one tensor field, the compiled
nearest-neighbor clause carries target breadth `min(limit+offset,
ef_search)` and additional exploration breadth `max(ef_search −
(limit+offset), 0)` when `ef_search` is given, and `limit+offset` / `0`
when it is omitted. -/
theorem tensor_search_breadths (idx : StructuredMarqoIndex) (b : QueryBase)
    (t : TensorQueryData) (f : String) (tf : TensorField)
    (hs : b.searchable_attributes = some [f])
    (htf : tensor_field_map idx f = some tf) :
    (∀ ef, t.ef_search = some ef →
      get_tensor_search_term idx b t =
        "(" ++ nnClause (min (b.limit + b.offset) ef)
          (max (ef - (b.limit + b.offset)) 0) t.approximate tf.embeddings_field_name ++ ")") ∧
    (t.ef_search = none →
      get_tensor_search_term idx b t =
        "(" ++ nnClause (b.limit + b.offset) 0 t.approximate tf.embeddings_field_name ++ ")") := by
  constructor
  · intro ef hef
    simp [get_tensor_search_term, hs, htf, hef, intercalate_singleton]
  · intro hef
    simp [get_tensor_search_term, hs, htf, hef, intercalate_singleton]

/-- Query base for the C5 witness: limit 10, offset 5, searching the
tensor field of `idxA`. -/
def qb5 : QueryBase :=
  { qbPlain with limit := 10, offset := 5, searchable_attributes := some ["caption"] }

/-- C5 witness: with limit 10, offset 5 and ef_search 20 the clause
carries target breadth 15 and additional breadth 5; with ef_search
omitted it carries 15 and 0. -/
theorem tensor_search_breadths_witness :
    get_tensor_search_term idxA qb5
        { vector_query := [1], ef_search := some 20, approximate := true } =
      "(" ++ nnClause 15 5 true "marqo__embeddings_caption" ++ ")" ∧
    get_tensor_search_term idxA qb5
        { vector_query := [1], ef_search := none, approximate := true } =
      "(" ++ nnClause 15 0 true "marqo__embeddings_caption" ++ ")" := by
  constructor
  · have h := (tensor_search_breadths idxA qb5
      { vector_query := [1], ef_search := some 20, approximate := true }
      "caption" tfCaption rfl rfl).1 20 rfl
    rw [h]; decide
  · have h := (tensor_search_breadths idxA qb5
      { vector_query := [1], ef_search := none, approximate := true }
      "caption" tfCaption rfl rfl).2 rfl
    rw [h]; decide

/-! ## Claim C3 — embeddings wire field decoding -/

/-- A wire document holding only the embeddings field of `idxA`'s tensor
field. -/
def wd3 (v : Value) : VespaDoc :=
  { fields? := some [("marqo__embeddings_caption", v)], id? := none }

/-- Evaluation of the wire-field dispatch on the embeddings field of
`idxA` (the schema lookups and name comparisons are ground). -/
theorem parseWireField_embeddings (w : Value) :
    parseWireField idxA [] "marqo__embeddings_caption" w =
      match decodeEmbeddings w with
      | some l => .ok (setTensorSub [] "caption" MARQO_DOC_EMBEDDINGS (.varr l))
      | none =>
        .error (.vespaDocParsing ("Cannot parse embeddings field marqo__embeddings_caption")) :=
  rfl

/-- C3 (amended): an embeddings wire field whose value is a map with a
`blocks` map entry is flattened to the list of the block map's values in
the map's own iteration order (not sorted by key); every other shape of
the value raises `MalformedWireDocument`
(`VespaDocumentParsingError`). -/
theorem embeddings_block_decode (v : Value) :
    (∀ m bm, v = .vobj m → dlookup m "blocks" = some (.vobj bm) →
      to_marqo_document idxA (wd3 v) false =
        .ok [(MARQO_DOC_TENSORS, .vobj [("caption", .vobj
          [(MARQO_DOC_EMBEDDINGS, .varr (bm.map (fun p => p.2)))])])]) ∧
    ((∀ m bm, ¬(v = .vobj m ∧ dlookup m "blocks" = some (.vobj bm))) →
      to_marqo_document idxA (wd3 v) false =
        .error (.vespaDocParsing ("Cannot parse embeddings field marqo__embeddings_caption"))) := by
  constructor
  · intro m bm hv hb
    subst hv
    have hd : decodeEmbeddings (.vobj m) = some (bm.map (fun p => p.2)) := by
      simp [decodeEmbeddings, hb]
    simp [to_marqo_document, wd3, parseWireFields, parseWireField_embeddings, hd]
    rfl
  · intro h
    have hd : decodeEmbeddings v = none := by
      cases v with
      | vobj m =>
        rcases hb : dlookup m "blocks" with _ | x
        · simp [decodeEmbeddings, hb]
        · cases x with
          | vobj bm => exact absurd ⟨rfl, hb⟩ (h m bm)
          | vstr s => simp [decodeEmbeddings, hb]
          | vbool b => simp [decodeEmbeddings, hb]
          | vint n => simp [decodeEmbeddings, hb]
          | vfloat q => simp [decodeEmbeddings, hb]
          | varr l => simp [decodeEmbeddings, hb]
      | vstr s => rfl
      | vbool b => rfl
      | vint n => rfl
      | vfloat q => rfl
      | varr l => rfl
    simp [to_marqo_document, wd3, parseWireFields, parseWireField_embeddings, hd]

/-- C3 counterexample: the claim's "flattened by ascending integer key"
fails — a block map arriving with keys in the order `"1", "0"` decodes to
the values in map order (`[9, 7]`), not in ascending-key order
(`[7, 9]`). -/
theorem embeddings_block_decode_counterexample :
    to_marqo_document idxA (wd3
        (.vobj [("blocks", .vobj [("1", .vint 9), ("0", .vint 7)])])) false =
      .ok [(MARQO_DOC_TENSORS, .vobj [("caption", .vobj
        [(MARQO_DOC_EMBEDDINGS, .varr [.vint 9, .vint 7])])])] ∧
    Value.varr [.vint 9, .vint 7] ≠ Value.varr [.vint 7, .vint 9] := by
  constructor
  · decide
  · decide

/-- C3 witness: a well-shaped block map decodes to its value list; a
non-map embeddings value raises the parsing error. -/
theorem embeddings_block_decode_witness :
    to_marqo_document idxA (wd3 (.vobj [("blocks", .vobj [("0", .vfloat 1)])])) false =
      .ok [(MARQO_DOC_TENSORS, .vobj [("caption", .vobj
        [(MARQO_DOC_EMBEDDINGS, .varr [.vfloat 1])])])] ∧
    to_marqo_document idxA (wd3 (.vint 3)) false =
      .error (.vespaDocParsing ("Cannot parse embeddings field marqo__embeddings_caption")) := by
  constructor
  · exact (embeddings_block_decode _).1 [("blocks", .vobj [("0", .vfloat 1)])]
      [("0", .vfloat 1)] rfl rfl
  · exact (embeddings_block_decode (.vint 3)).2
      (fun m bm h => Value.noConfusion h.1)

/-! ### Association-list lemmas -/

@[simp] theorem exBindOkE {α β : Type} (x : α) (f : α → Except MarqoError β) :
    Except.bind (Except.ok x) f = f x := rfl

@[simp] theorem exBindErrE {α β : Type} (e : MarqoError) (f : α → Except MarqoError β) :
    Except.bind (Except.error e : Except MarqoError α) f = .error e := rfl

theorem dlookup_nil (k : String) : dlookup [] k = none := rfl

theorem dlookup_cons (k' k : String) (v : Value) (d : Dict) :
    dlookup ((k', v) :: d) k = if k' = k then some v else dlookup d k := by
  by_cases h : k' = k <;> simp [dlookup, List.find?, h]

theorem dcontains_eq_isSome (d : Dict) (k : String) :
    dcontains d k = (dlookup d k).isSome := by
  simp [dcontains, dlookup]

theorem dlookup_append (d1 d2 : Dict) (k : String) :
    dlookup (d1 ++ d2) k =
      match dlookup d1 k with
      | some v => some v
      | none => dlookup d2 k := by
  induction d1 with
  | nil => simp [dlookup]
  | cons p rest ih =>
    rw [List.cons_append, dlookup_cons, dlookup_cons]
    by_cases hp : p.1 = k
    · simp [hp]
    · simp [hp, ih]

theorem dinsert_fresh (d : Dict) (k : String) (v : Value) (h : dcontains d k = false) :
    dinsert d k v = d ++ [(k, v)] := by
  simp [dinsert, h]

theorem dlookup_map_update_ne (d : Dict) (k k' : String) (v : Value) (h : k ≠ k') :
    dlookup (d.map (fun p => if p.1 = k then (k, v) else p)) k' = dlookup d k' := by
  induction d with
  | nil => rfl
  | cons p rest ih =>
    rw [List.map_cons]
    by_cases hp : p.1 = k
    · have hpk' : ¬(p.1 = k') := by rw [hp]; exact h
      rw [if_pos hp, dlookup_cons, dlookup_cons, if_neg h, if_neg hpk', ih]
    · rw [if_neg hp, dlookup_cons, dlookup_cons]
      by_cases hk' : p.1 = k'
      · rw [if_pos hk', if_pos hk']
      · rw [if_neg hk', if_neg hk', ih]

theorem dlookup_map_update_self (d : Dict) (k : String) (v : Value)
    (h : dcontains d k = true) :
    dlookup (d.map (fun p => if p.1 = k then (k, v) else p)) k = some v := by
  induction d with
  | nil => simp [dcontains] at h
  | cons p rest ih =>
    rw [List.map_cons]
    by_cases hp : p.1 = k
    · rw [if_pos hp, dlookup_cons, if_pos rfl]
    · have h' : dcontains rest k = true := by
        simp only [dcontains, List.find?, hp, decide_eq_true_eq] at h ⊢
        simpa [hp] using h
      rw [if_neg hp, dlookup_cons, if_neg hp]
      exact ih h'

theorem dlookup_none_of_dcontains_false (d : Dict) (k : String)
    (h : dcontains d k = false) : dlookup d k = none := by
  rw [dcontains_eq_isSome] at h
  exact Option.not_isSome_iff_eq_none.mp (by simp [h])

theorem dlookup_dinsert_self (d : Dict) (k : String) (v : Value) :
    dlookup (dinsert d k v) k = some v := by
  unfold dinsert
  by_cases hc : dcontains d k
  · rw [if_pos hc]
    exact dlookup_map_update_self d k v hc
  · rw [if_neg (by simp [hc]), dlookup_append,
      dlookup_none_of_dcontains_false d k (by simpa using hc)]
    rw [dlookup_cons, if_pos rfl]

theorem dlookup_dinsert_of_ne (d : Dict) (k k' : String) (v : Value) (h : k ≠ k') :
    dlookup (dinsert d k v) k' = dlookup d k' := by
  unfold dinsert
  by_cases hc : dcontains d k
  · rw [if_pos hc]
    exact dlookup_map_update_ne d k k' v h
  · rw [if_neg (by simp [hc]), dlookup_append]
    rcases hl : dlookup d k' with _ | v'
    · rw [dlookup_cons, if_neg h, dlookup_nil]
    · rfl

/-! ## Claim C2 — argument mutation and idempotence -/

/-- The second and third stages of `to_vespa_query` applied to the query
state `q0` that emerges from the attribute pre-check. -/
def queryDispatch (idx : StructuredMarqoIndex) (q0 : MarqoQuery) :
    Except MarqoError (MarqoQuery × Dict) :=
  Except.bind (verifyScoreModifiers idx q0.base) (fun _ =>
    match q0 with
    | MarqoQuery.tensor b t =>
      Except.bind (to_vespa_tensor_query idx b t) (fun o => Except.ok (q0, o))
    | MarqoQuery.lexical b l =>
      Except.bind (to_vespa_lexical_query idx b l) (fun o => Except.ok (q0, o))
    | MarqoQuery.hybrid _ => Except.error MarqoError.notImplementedError)

/-- Unfolding of `to_vespa_query` when no attributes list is given: the
query is dispatched unchanged. -/
theorem to_vespa_query_attrs_none (idx : StructuredMarqoIndex) (q : MarqoQuery)
    (hA : q.base.attributes_to_retrieve = none) :
    to_vespa_query idx q = queryDispatch idx q := by
  rw [to_vespa_query, hA]
  rfl

/-- Unfolding of `to_vespa_query` when an attributes list is given: the
pre-check runs, then the query with the appended attribute names is
dispatched. -/
theorem to_vespa_query_attrs_some (idx : StructuredMarqoIndex) (q : MarqoQuery)
    (atts : List String) (hA : q.base.attributes_to_retrieve = some atts) :
    to_vespa_query idx q =
      Except.bind (attributesLoop idx atts []) (fun cn =>
        queryDispatch idx (q.setAttributes (atts ++ [FIELD_ID] ++ cn))) := by
  rw [to_vespa_query, hA]
  rcases hL : attributesLoop idx atts [] with e | cn
  · simp only [hL, exBindErr, exBindErrE]
  · simp only [hL, exBindOk, exBindOkE]
    rfl

/-- The compiled pair's first component is always the post-pre-check
query. -/
theorem dispatch_fst (idx : StructuredMarqoIndex) (q0 q' : MarqoQuery) (out : Dict)
    (h : queryDispatch idx q0 = .ok (q', out)) : q' = q0 := by
  unfold queryDispatch at h
  cases q0 with
  | tensor b t =>
    rcases hV : verifyScoreModifiers idx (MarqoQuery.tensor b t).base with e | u
    · rw [hV] at h; simp at h
    · rw [hV] at h; simp only [exBindOkE] at h
      have h' : Except.bind (to_vespa_tensor_query idx b t)
          (fun o => Except.ok (MarqoQuery.tensor b t, o)) = .ok (q', out) := h
      rcases hT : to_vespa_tensor_query idx b t with e | o
      · rw [hT] at h'; simp at h'
      · rw [hT] at h'; simp only [exBindOkE] at h'
        injection h' with h1
        injection h1 with ha hb
        exact ha.symm
  | lexical b l =>
    rcases hV : verifyScoreModifiers idx (MarqoQuery.lexical b l).base with e | u
    · rw [hV] at h; simp at h
    · rw [hV] at h; simp only [exBindOkE] at h
      have h' : Except.bind (to_vespa_lexical_query idx b l)
          (fun o => Except.ok (MarqoQuery.lexical b l, o)) = .ok (q', out) := h
      rcases hT : to_vespa_lexical_query idx b l with e | o
      · rw [hT] at h'; simp at h'
      · rw [hT] at h'; simp only [exBindOkE] at h'
        injection h' with h1
        injection h1 with ha hb
        exact ha.symm
  | hybrid b =>
    rcases hV : verifyScoreModifiers idx (MarqoQuery.hybrid b).base with e | u
    · rw [hV] at h; simp at h
    · rw [hV] at h; simp only [exBindOkE] at h
      have h' : (Except.error MarqoError.notImplementedError :
          Except MarqoError (MarqoQuery × Dict)) = .ok (q', out) := h
      simp at h'

/-- C2 (amended): `to_vespa_query` mutates its argument's
attributes-to-retrieve list in place — when the list is given, the query
that emerges from a successful call has the id field and the chunk-storage
names of tensor attributes appended to it, so a repeated call on the same
(now mutated) query object is not guaranteed to reproduce the output;
queries without an attributes list are returned unchanged. -/
theorem to_vespa_query_mutates_attributes (idx : StructuredMarqoIndex) (q : MarqoQuery) :
    (q.base.attributes_to_retrieve = none →
      ∀ q' out, to_vespa_query idx q = .ok (q', out) → q' = q) ∧
    (∀ atts q' out, q.base.attributes_to_retrieve = some atts →
      to_vespa_query idx q = .ok (q', out) →
      ∃ cn, attributesLoop idx atts [] = .ok cn ∧
        q' = q.setAttributes (atts ++ [FIELD_ID] ++ cn)) := by
  constructor
  · intro hA q' out h
    rw [to_vespa_query_attrs_none idx q hA] at h
    exact dispatch_fst idx q q' out h
  · intro atts q' out hA h
    rw [to_vespa_query_attrs_some idx q atts hA] at h
    rcases hL : attributesLoop idx atts [] with e | cn
    · rw [hL] at h; simp at h
    · rw [hL] at h; simp only [exBindOkE] at h
      exact ⟨cn, rfl, dispatch_fst idx _ q' out h⟩

/-- The tensor query used to exhibit the mutation. -/
def qC2 : MarqoQuery :=
  .tensor { qbPlain with attributes_to_retrieve := some ["title"] }
    { vector_query := [1], ef_search := none, approximate := true }

/-- The post-call state of `qC2`: the id field has been appended to its
attributes-to-retrieve list. -/
def qC2mut : MarqoQuery :=
  .tensor { qbPlain with attributes_to_retrieve := some ["title", FIELD_ID] }
    { vector_query := [1], ef_search := none, approximate := true }

/-- C2 counterexample: compiling `qC2` succeeds and leaves the query
mutated (`qC2mut ≠ qC2`), and compiling the mutated query fails (the
appended id field is not a schema field), so calling `to_vespa_query`
twice on the same query object does not yield identical output. -/
theorem to_vespa_query_not_idempotent_counterexample :
    (to_vespa_query idxA qC2).map Prod.fst = .ok qC2mut ∧
    qC2mut ≠ qC2 ∧
    exOk (to_vespa_query idxA qC2mut) = false := by
  refine ⟨by decide, by decide, by decide⟩

/-- The output dictionary of the first compilation of `qC2`. -/
def outC2 : Dict :=
  match to_vespa_query idxA qC2 with
  | .ok (_, o) => o
  | .error _ => []

set_option maxRecDepth 4000 in
/-- C2 witness: the mutation shape at the concrete query `qC2`. -/
theorem to_vespa_query_mutates_attributes_witness :
    ∃ cn, attributesLoop idxA ["title"] [] = .ok cn ∧
      qC2mut = qC2.setAttributes (["title"] ++ [FIELD_ID] ++ cn) :=
  (to_vespa_query_mutates_attributes idxA qC2).2 ["title"] qC2mut outC2 rfl (by decide)

/-! ## Claim C7 — boolean fields marshal to 0/1 and back -/

/-- The physical wire names a flat field's value is routed to. -/
def storageNamesOf (fld : MarqoField) : List String :=
  fld.lexical_field_name.toList ++ fld.filter_field_name.toList ++
    (if fld.lexical_field_name = none ∧ fld.filter_field_name = none then [fld.name] else [])

theorem flatFieldLoopStep_lookup (fld : MarqoField) (mv : Value) :
    ∀ sn ∈ storageNamesOf fld, dlookup (flatFieldLoopStep [] fld mv) sn = some mv := by
  intro sn hsn
  rcases hl : fld.lexical_field_name with _ | ln <;>
    rcases hf : fld.filter_field_name with _ | fn
  · simp [storageNamesOf, hl, hf] at hsn
    subst hsn
    simp only [flatFieldLoopStep, hl, hf]
    rw [if_pos (by simp)]
    exact dlookup_dinsert_self [] fld.name mv
  · simp [storageNamesOf, hl, hf] at hsn
    subst hsn
    simp only [flatFieldLoopStep, hl, hf]
    rw [if_neg (by simp)]
    exact dlookup_dinsert_self [] sn mv
  · simp [storageNamesOf, hl, hf] at hsn
    subst hsn
    simp only [flatFieldLoopStep, hl, hf]
    rw [if_neg (by simp)]
    exact dlookup_dinsert_self [] sn mv
  · simp [storageNamesOf, hl, hf] at hsn
    simp only [flatFieldLoopStep, hl, hf]
    rw [if_neg (by simp)]
    rcases hsn with h | h
    · subst h
      by_cases hfe : fn = sn
      · subst hfe
        exact dlookup_dinsert_self _ fn mv
      · rw [dlookup_dinsert_of_ne _ fn sn mv hfe]
        exact dlookup_dinsert_self [] sn mv
    · subst h
      exact dlookup_dinsert_self _ sn mv

/-- C7: a boolean field's value `b` marshals to the wire integer 1
(`true`) or 0 (`false`) at every storage name of the field; a wire value
equal to 0 or 1 decodes back to the corresponding boolean; a hashable
wire value equal to neither 0 nor 1 (under Python's numeric equality)
raises `MalformedWireDocument`; and an unhashable wire value (a JSON
array or object) makes the 0/1 set-membership test itself raise an
uncaught `TypeError` instead of a `MalformedWireDocument`. -/
theorem bool_wire_marshaling (idx : StructuredMarqoIndex) (name : String)
    (fld : MarqoField) (b : Bool) (k : String) (w : Value)
    (h1 : field_map idx name = some fld) (h2 : fld.type = FieldType.Bool) :
    ((FIELD_VECTOR_COUNT ∉ storageNamesOf fld ∧ FIELD_SCORE_MODIFIERS ∉ storageNamesOf fld) →
      ∃ fs, to_vespa_document idx ⟨none, [(name, .vbool b)], none⟩ = .ok ⟨some fs, none⟩ ∧
        ∀ sn ∈ storageNamesOf fld, dlookup fs sn = some (.vint (if b then 1 else 0))) ∧
    (all_field_map idx k = some fld →
      to_marqo_document idx ⟨some [(k, .vint 0)], none⟩ false = .ok [(fld.name, .vbool false)] ∧
      to_marqo_document idx ⟨some [(k, .vint 1)], none⟩ false = .ok [(fld.name, .vbool true)]) ∧
    (all_field_map idx k = some fld → pyHashable w = true →
      pyEqInt w 0 = false → pyEqInt w 1 = false →
      to_marqo_document idx ⟨some [(k, w)], none⟩ false =
        .error (.vespaDocParsing ("Vespa document has invalid value for boolean field " ++
          fld.name ++ ". Expected 0 or 1"))) ∧
    (all_field_map idx k = some fld → pyHashable w = false →
      to_marqo_document idx ⟨some [(k, w)], none⟩ false =
        .error (.internalError "TypeError: unhashable type")) := by
  refine ⟨?_, ?_, ?_, ?_⟩
  · rintro ⟨hr1, hr2⟩
    have hver : verify_marqo_field_type fld.type (.vbool b) = true := by
      rw [h2]; rfl
    by_cases hsmc : fld.features.contains FieldFeature.ScoreModifier
    · have hloop : marshalFlatLoop idx [(name, .vbool b)] [] [] = .ok
          (flatFieldLoopStep [] fld (Value.vint (if b then 1 else 0)),
           [(fld.name, Value.vint (if b then 1 else 0))]) := by
        rw [marshalFlatLoop, h1]
        simp only [hver, if_pos, h2, hsmc]
        rfl
      have hdoc : to_vespa_document idx ⟨none, [(name, .vbool b)], none⟩ = .ok
          ⟨some (dinsert (dinsert (flatFieldLoopStep [] fld (Value.vint (if b then 1 else 0)))
              FIELD_VECTOR_COUNT (.vint 0)) FIELD_SCORE_MODIFIERS
              (.vobj [(fld.name, Value.vint (if b then 1 else 0))])), none⟩ := by
        rw [to_vespa_document]
        simp only [hloop, exBindOk, exBindOkE]
        rfl
      refine ⟨_, hdoc, ?_⟩
      intro sn hsn
      have hvc : FIELD_VECTOR_COUNT ≠ sn := fun he => hr1 (he ▸ hsn)
      have hsm : FIELD_SCORE_MODIFIERS ≠ sn := fun he => hr2 (he ▸ hsn)
      rw [dlookup_dinsert_of_ne _ _ _ _ hsm, dlookup_dinsert_of_ne _ _ _ _ hvc]
      exact flatFieldLoopStep_lookup fld _ sn hsn
    · have hsmc' : fld.features.contains FieldFeature.ScoreModifier = false := by
        simpa using hsmc
      have hloop : marshalFlatLoop idx [(name, .vbool b)] [] [] = .ok
          (flatFieldLoopStep [] fld (Value.vint (if b then 1 else 0)), []) := by
        rw [marshalFlatLoop, h1]
        simp only [hver, if_pos, h2, hsmc']
        rfl
      have hdoc : to_vespa_document idx ⟨none, [(name, .vbool b)], none⟩ = .ok
          ⟨some (dinsert (flatFieldLoopStep [] fld (Value.vint (if b then 1 else 0)))
              FIELD_VECTOR_COUNT (.vint 0)), none⟩ := by
        rw [to_vespa_document]
        simp only [hloop, exBindOk, exBindOkE]
        rfl
      refine ⟨_, hdoc, ?_⟩
      intro sn hsn
      have hvc : FIELD_VECTOR_COUNT ≠ sn := fun he => hr1 (he ▸ hsn)
      rw [dlookup_dinsert_of_ne _ _ _ _ hvc]
      exact flatFieldLoopStep_lookup fld _ sn hsn
  · intro h3
    constructor
    · rw [to_marqo_document]
      simp only [parseWireFields, parseWireField, h3]
      rw [decodeWireValue]
      simp [h2, pyHashable, pyEqInt, pyTruthy, dinsert, dcontains, dlookup]
    · rw [to_marqo_document]
      simp only [parseWireFields, parseWireField, h3]
      rw [decodeWireValue]
      simp [h2, pyHashable, pyEqInt, pyTruthy, dinsert, dcontains, dlookup]
  · intro h3 hh hw0 hw1
    rw [to_marqo_document]
    simp only [parseWireFields, parseWireField, h3]
    rw [decodeWireValue]
    simp [h2, hh, hw0, hw1]
  · intro h3 hh
    rw [to_marqo_document]
    simp only [parseWireFields, parseWireField, h3]
    rw [decodeWireValue]
    simp [h2, hh]

/-- The boolean field of `idxA`. -/
def fldActive : MarqoField :=
  { name := "active", type := FieldType.Bool, lexical_field_name := none,
    filter_field_name := some "marqo__filter_active",
    features := [FieldFeature.Filter] }

/-- C7 witness: the boolean field `active` of `idxA` (filter storage
`marqo__filter_active`) marshals `true` to wire 1, decodes wire 0/1 back
to `false`/`true`, rejects wire 7 as a parsing error, and crashes with an
uncaught `TypeError` on an unhashable wire list. -/
theorem bool_wire_marshaling_witness :
    (∃ fs, to_vespa_document idxA ⟨none, [("active", .vbool true)], none⟩ =
        .ok ⟨some fs, none⟩ ∧
      ∀ sn ∈ storageNamesOf fldActive, dlookup fs sn = some (.vint 1)) ∧
    to_marqo_document idxA ⟨some [("marqo__filter_active", .vint 0)], none⟩ false =
      .ok [("active", .vbool false)] ∧
    to_marqo_document idxA ⟨some [("marqo__filter_active", .vint 1)], none⟩ false =
      .ok [("active", .vbool true)] ∧
    to_marqo_document idxA ⟨some [("marqo__filter_active", .vint 7)], none⟩ false =
      .error (.vespaDocParsing ("Vespa document has invalid value for boolean field " ++
        "active. Expected 0 or 1")) ∧
    to_marqo_document idxA ⟨some [("marqo__filter_active", .varr [])], none⟩ false =
      .error (.internalError "TypeError: unhashable type") := by
  have h := bool_wire_marshaling idxA "active" fldActive
    true "marqo__filter_active" (.vint 7) rfl rfl
  have h4 := bool_wire_marshaling idxA "active" fldActive
    true "marqo__filter_active" (.varr []) rfl rfl
  exact ⟨h.1 (by decide), (h.2.1 rfl).1, (h.2.1 rfl).2,
    h.2.2.1 rfl (by decide) (by decide) (by decide),
    h4.2.2.2 rfl (by decide)⟩

/-- C7 counterexample: a wire value for a boolean field other than 0 or 1
need not raise `MalformedWireDocument` — an unhashable wire list makes
the decoder raise an uncaught `TypeError` instead. -/
theorem bool_wire_marshaling_counterexample :
    to_marqo_document idxA ⟨some [("marqo__filter_active", .varr [])], none⟩ false =
      .error (.internalError "TypeError: unhashable type") ∧
    isVespaParsingError (to_marqo_document idxA
      ⟨some [("marqo__filter_active", .varr [])], none⟩ false) = false := by
  decide

/-! ## Claim C6 — filter tree rendering -/

/-- C6: And/Or nodes render with explicit outer parentheses around the
two rendered children; Not renders as `!(...)`; a range term with only
one bound renders exactly that single clause with no `AND`; a range term
with neither bound raises the internal-inconsistency error. -/
theorem filter_tree_rendering (idx : StructuredMarqoIndex) :
    (∀ n1 n2 s1 s2, tree_to_filter_string idx n1 = .ok s1 →
      tree_to_filter_string idx n2 = .ok s2 →
      tree_to_filter_string idx (.and n1 n2) = .ok ("(" ++ s1 ++ " AND " ++ s2 ++ ")")) ∧
    (∀ n1 n2 s1 s2, tree_to_filter_string idx n1 = .ok s1 →
      tree_to_filter_string idx n2 = .ok s2 →
      tree_to_filter_string idx (.or n1 n2) = .ok ("(" ++ s1 ++ " OR " ++ s2 ++ ")")) ∧
    (∀ n s, tree_to_filter_string idx n = .ok s →
      tree_to_filter_string idx (.not n) = .ok ("!(" ++ s ++ ")")) ∧
    (∀ f fld lo, (filterable_fields_names idx).contains f = true →
      all_field_map idx f = some fld →
      tree_to_filter_string idx (.range f (some lo) none) =
        .ok (optStr fld.filter_field_name ++ " >= " ++ toString lo)) ∧
    (∀ f fld hi, (filterable_fields_names idx).contains f = true →
      all_field_map idx f = some fld →
      tree_to_filter_string idx (.range f none (some hi)) =
        .ok (optStr fld.filter_field_name ++ " <= " ++ toString hi)) ∧
    (∀ f fld, (filterable_fields_names idx).contains f = true →
      all_field_map idx f = some fld →
      tree_to_filter_string idx (.range f none none) =
        .error (.internalError "RangeTerm has no lower or upper bound")) := by
  refine ⟨?_, ?_, ?_, ?_, ?_, ?_⟩
  · intro n1 n2 s1 s2 h1 h2
    rw [tree_to_filter_string]
    simp [h1, h2, Except.bind]
  · intro n1 n2 s1 s2 h1 h2
    rw [tree_to_filter_string]
    simp [h1, h2, Except.bind]
  · intro n s h
    rw [tree_to_filter_string]
    simp [h, Except.bind]
  · intro f fld lo hf hm
    rw [tree_to_filter_string, if_pos hf, hm]
  · intro f fld hi hf hm
    rw [tree_to_filter_string, if_pos hf, hm]
  · intro f fld hf hm
    rw [tree_to_filter_string, if_pos hf, hm]

/-- The dual-stored text field of `idxA`. -/
def fldTitle : MarqoField :=
  { name := "title", type := FieldType.Text,
    lexical_field_name := some "marqo__lexical_title",
    filter_field_name := some "marqo__filter_title",
    features := [FieldFeature.LexicalSearch, FieldFeature.Filter] }

/-- C6 witness: concrete renderings over `idxA` — a conjunction, a
disjunction, a negation, one-bound ranges, and the empty range error, on
the filterable fields `title` and `active`. -/
theorem filter_tree_rendering_witness :
    tree_to_filter_string idxA (.and (.equality "title" "a") (.equality "active" "true")) =
      .ok ("(" ++ "marqo__filter_title contains \"a\"" ++ " AND " ++
        "marqo__filter_active contains \"1\"" ++ ")") ∧
    tree_to_filter_string idxA (.or (.equality "title" "a") (.equality "active" "true")) =
      .ok ("(" ++ "marqo__filter_title contains \"a\"" ++ " OR " ++
        "marqo__filter_active contains \"1\"" ++ ")") ∧
    tree_to_filter_string idxA (.not (.equality "title" "a")) =
      .ok ("!(" ++ "marqo__filter_title contains \"a\"" ++ ")") ∧
    tree_to_filter_string idxA (.range "title" (some 5) none) =
      .ok "marqo__filter_title >= 5" ∧
    tree_to_filter_string idxA (.range "title" none (some 9)) =
      .ok "marqo__filter_title <= 9" ∧
    tree_to_filter_string idxA (.range "title" none none) =
      .error (.internalError "RangeTerm has no lower or upper bound") := by
  have h := filter_tree_rendering idxA
  refine ⟨?_, ?_, ?_, ?_, ?_, ?_⟩
  · exact h.1 _ _ _ _ (by decide) (by decide)
  · exact h.2.1 _ _ _ _ (by decide) (by decide)
  · exact h.2.2.1 _ _ (by decide)
  · have hr := h.2.2.2.1 "title" fldTitle 5 (by decide) rfl
    rw [hr]; decide
  · have hr := h.2.2.2.2.1 "title" fldTitle 9 (by decide) rfl
    rw [hr]; decide
  · exact h.2.2.2.2.2 "title" fldTitle (by decide) rfl

/-! ## Claim C4 — attributes-to-retrieve pre-check -/

theorem attributesLoop_error (idx : StructuredMarqoIndex) :
    ∀ (pre : List String) (bad : String) (post cn0 : List String),
      (∀ a ∈ pre, (field_map idx a).isSome = true) → field_map idx bad = none →
      attributesLoop idx (pre ++ bad :: post) cn0 =
        .error (.invalidFieldName (noFieldMsg idx bad)) := by
  intro pre
  induction pre with
  | nil =>
    intro bad post cn0 _ hbad
    rw [List.nil_append, attributesLoop]
    simp [hbad]
  | cons a rest ih =>
    intro bad post cn0 hpre hbad
    rw [List.cons_append, attributesLoop]
    rcases Option.isSome_iff_exists.mp (hpre a (by simp)) with ⟨fld, hfld⟩
    simp only [hfld, Option.isNone_some, Bool.false_eq_true, if_false]
    exact ih bad post _ (fun x hx => hpre x (by simp [hx])) hbad

theorem attributesLoop_ok (idx : StructuredMarqoIndex) :
    ∀ (atts cn0 : List String),
      (∀ a ∈ atts, (field_map idx a).isSome = true) →
      attributesLoop idx atts cn0 = .ok (cn0 ++ atts.filterMap (fun a =>
        (tensor_field_map idx a).map (fun tf => tf.chunk_field_name))) := by
  intro atts
  induction atts with
  | nil => intro cn0 _; simp [attributesLoop]
  | cons a rest ih =>
    intro cn0 hpre
    rcases Option.isSome_iff_exists.mp (hpre a (by simp)) with ⟨fld, hfld⟩
    rw [attributesLoop]
    simp only [hfld, Option.isNone_some, Bool.false_eq_true, if_false]
    rcases htf : tensor_field_map idx a with _ | tf
    · rw [ih cn0 (fun x hx => hpre x (by simp [hx]))]
      simp [htf]
    · rw [ih (cn0 ++ [tf.chunk_field_name]) (fun x hx => hpre x (by simp [hx]))]
      simp [htf]

/-- The attributes list set by `setAttributes`. -/
theorem setAttributes_base (q : MarqoQuery) (l : List String) :
    (q.setAttributes l).base.attributes_to_retrieve = some l := by
  cases q <;> rfl

/-- A tensor query with default searchable attributes and no filter
always compiles. -/
theorem to_vespa_tensor_query_ok (idx : StructuredMarqoIndex) (b : QueryBase)
    (t : TensorQueryData) (hs : b.searchable_attributes = none)
    (hf : b.filter = none) : ∃ out, to_vespa_tensor_query idx b t = .ok out := by
  rw [to_vespa_tensor_query, hs]
  simp only [get_filter_term, hf, exBindOkE, exBindOk]
  exact ⟨_, rfl⟩

/-- C4 (amended): when a listed attribute does not resolve in the schema,
`to_vespa_query` fails with `UnknownField`, whose message lists the valid
field names; when every listed name resolves, the pre-check passes and
the id field plus the chunk-storage names of the tensor attributes are
appended to the retrieved attributes — but the compilation may still fail
later (e.g. on an invalid score modifier); it does succeed for a tensor
query with default searchable attributes, no filter and no score
modifiers. -/
theorem attributes_to_retrieve_check (idx : StructuredMarqoIndex) (q : MarqoQuery)
    (atts : List String) (hA : q.base.attributes_to_retrieve = some atts) :
    (∀ pre bad post, atts = pre ++ bad :: post →
      (∀ a ∈ pre, (field_map idx a).isSome = true) → field_map idx bad = none →
      to_vespa_query idx q = .error (.invalidFieldName (noFieldMsg idx bad)) ∧
      noFieldMsg idx bad = "Index " ++ idx.name ++ " has no field " ++ bad ++
        ". Available fields are: " ++ String.intercalate ", " (field_map_keys idx)) ∧
    ((∀ a ∈ atts, (field_map idx a).isSome = true) →
      ∀ q' out, to_vespa_query idx q = .ok (q', out) →
        q'.base.attributes_to_retrieve = some (atts ++ [FIELD_ID] ++
          atts.filterMap (fun a =>
            (tensor_field_map idx a).map (fun tf => tf.chunk_field_name)))) ∧
    (∀ b t, q = .tensor b t → (∀ a ∈ atts, (field_map idx a).isSome = true) →
      b.score_modifiers = none → b.searchable_attributes = none → b.filter = none →
      ∃ out, to_vespa_query idx q = .ok (q.setAttributes (atts ++ [FIELD_ID] ++
        atts.filterMap (fun a =>
          (tensor_field_map idx a).map (fun tf => tf.chunk_field_name))), out)) := by
  refine ⟨?_, ?_, ?_⟩
  · intro pre bad post hsplit hpre hbad
    refine ⟨?_, rfl⟩
    rw [to_vespa_query_attrs_some idx q atts hA, hsplit,
      attributesLoop_error idx pre bad post [] hpre hbad]
    rfl
  · intro hall q' out h
    rw [to_vespa_query_attrs_some idx q atts hA, attributesLoop_ok idx atts [] hall] at h
    simp only [exBindOkE, List.nil_append] at h
    have := dispatch_fst idx _ q' out h
    rw [this, setAttributes_base]
  · intro b t hq hall hsm hs hf
    subst hq
    rw [to_vespa_query_attrs_some idx _ atts hA, attributesLoop_ok idx atts [] hall]
    simp only [exBindOkE, List.nil_append]
    unfold queryDispatch
    have hv : verifyScoreModifiers idx
        ((MarqoQuery.tensor b t).setAttributes (atts ++ [FIELD_ID] ++
          atts.filterMap (fun a =>
            (tensor_field_map idx a).map (fun tf => tf.chunk_field_name)))).base =
        .ok () := by
      simp only [MarqoQuery.setAttributes, MarqoQuery.base, verifyScoreModifiers]
      simp [hsm]
    rw [hv]
    simp only [exBindOkE]
    rcases to_vespa_tensor_query_ok idx
      { b with attributes_to_retrieve := some (atts ++ [FIELD_ID] ++
          atts.filterMap (fun a =>
            (tensor_field_map idx a).map (fun tf => tf.chunk_field_name))) } t
      (by simpa using hs) (by simpa using hf) with ⟨out, hout⟩
    refine ⟨out, ?_⟩
    simp only [MarqoQuery.setAttributes]
    rw [hout]
    rfl

/-- A tensor query whose attributes all resolve but whose score modifier
references a non-eligible field. -/
def qC4 : MarqoQuery :=
  .tensor
    { qbPlain with
        attributes_to_retrieve := some ["title"],
        score_modifiers := some
          [{ field := "title", weight := 1, type := ScoreModifierType.Multiply }] }
    { vector_query := [1], ef_search := none, approximate := true }

/-- C4 counterexample: every name in `qC4`'s attributes-to-retrieve list
resolves in the schema, yet compilation does not succeed — it fails on
the score-modifier pre-check — refuting the claim's "otherwise it
succeeds". -/
theorem attributes_to_retrieve_check_counterexample :
    (field_map idxA "title").isSome = true ∧
    to_vespa_query idxA qC4 =
      .error (.invalidFieldName (noScoreModifierFieldMsg idxA "title")) := by
  refine ⟨by decide, by decide⟩

/-- A tensor query with one unresolvable attribute name. -/
def qW4bad : MarqoQuery :=
  .tensor { qbPlain with attributes_to_retrieve := some ["nope"] }
    { vector_query := [1], ef_search := none, approximate := true }

set_option maxRecDepth 4000 in
/-- C4 witness: the unknown-attribute failure with the valid names listed,
and the successful append of the id field and chunk names. -/
theorem attributes_to_retrieve_check_witness :
    to_vespa_query idxA qW4bad = .error (.invalidFieldName (noFieldMsg idxA "nope")) ∧
    noFieldMsg idxA "nope" = "Index idxA has no field nope. Available fields are: " ++
      "title, active, rating, caption" ∧
    ∃ out, to_vespa_query idxA qC2 = .ok (qC2.setAttributes
      (["title"] ++ [FIELD_ID] ++ ["title"].filterMap (fun a =>
        (tensor_field_map idxA a).map (fun tf => tf.chunk_field_name))), out) := by
  refine ⟨?_, by decide, ?_⟩
  · exact ((attributes_to_retrieve_check idxA qW4bad ["nope"] rfl).1 [] "nope" [] rfl
      (by simp) (by decide)).1
  · exact (attributes_to_retrieve_check idxA qC2 ["title"] rfl).2.2 _ _ rfl
      (by decide) rfl rfl rfl

/-! ## Claim C10 — empty chunk yields an empty highlight list -/

/-- C10: when the highlight pipeline selects a winning tensor field and
the chunk at the winning index is the empty string, the extractor returns
the empty highlight list — the same result as when the chunk-list field
is absent from the result row — not a one-element highlight holding the
empty chunk. -/
theorem highlight_empty_chunk (idx : StructuredMarqoIndex) (fields mf cl : Dict)
    (ctf : TensorField) (dv cell0 : Value) (restCells : List (String × Value))
    (key : String) (i : Int) (l : List Value)
    (h1 : dlookup fields VESPA_DOC_MATCH_FEATURES = some (.vobj mf))
    (h2 : selectClosestLoop mf idx.tensor_fields none = .ok (some (dv, ctf)))
    (h3 : dlookup mf (closestFeatureKey ctf) = some (.vobj cl))
    (h4 : dlookup cl "cells" = some (.vobj ((key, cell0) :: restCells)))
    (h5 : parseIntStr key = some i) :
    (dlookup fields ctf.chunk_field_name = some (.varr l) →
      pyIndex l i = some (.vstr "") →
      extract_highlights idx fields = .ok []) ∧
    (dcontains fields ctf.chunk_field_name = false →
      extract_highlights idx fields = .ok []) := by
  constructor
  · intro hcl hidx
    have hcont : dcontains fields ctf.chunk_field_name = true := by
      rw [dcontains_eq_isSome, hcl]; rfl
    rw [extract_highlights]
    simp [h1, h2, h3, h4, h5, hcont, hcl, hidx, pySubscript, pyTruthy, Except.bind]
  · intro hcont
    rw [extract_highlights]
    simp [h1, h2, h3, h4, h5, hcont, pySubscript, Except.bind]

/-- Match features for the C10 witness: one searched tensor field with the
closest cell at chunk index 0. -/
def mfW10 : Dict :=
  [("closest(marqo__embeddings_caption)", .vobj [("cells", .vobj [("0", .vfloat 1)])]),
   ("distance(field,marqo__embeddings_caption)", .vfloat (mkRat 1 2))]

/-- C10 witness: with the winning chunk equal to `""` the extractor
returns `[]`, and with the chunk-list field absent it also returns
`[]`. -/
theorem highlight_empty_chunk_witness :
    extract_highlights idxA
      [(VESPA_DOC_MATCH_FEATURES, .vobj mfW10),
       ("marqo__chunks_caption", .varr [.vstr ""])] = .ok [] ∧
    extract_highlights idxA [(VESPA_DOC_MATCH_FEATURES, .vobj mfW10)] = .ok [] := by
  constructor
  · exact (highlight_empty_chunk idxA
      [(VESPA_DOC_MATCH_FEATURES, .vobj mfW10), ("marqo__chunks_caption", .varr [.vstr ""])]
      mfW10 [("cells", .vobj [("0", .vfloat 1)])] tfCaption (.vfloat (mkRat 1 2)) (.vfloat 1) []
      "0" 0 [.vstr ""] rfl (by decide) rfl rfl (by decide)).1 (by decide) (by decide)
  · exact (highlight_empty_chunk idxA
      [(VESPA_DOC_MATCH_FEATURES, .vobj mfW10)]
      mfW10 [("cells", .vobj [("0", .vfloat 1)])] tfCaption (.vfloat (mkRat 1 2)) (.vfloat 1) []
      "0" 0 [.vstr ""] rfl (by decide) rfl rfl (by decide)).2 (by decide)

/-! ## Claim C8 — highlight selection takes the global minimum distance -/

/-- The rational value of a tracked distance (total on the numeric values
the selection loop can track). -/
def ratOf (v : Value) : Rat := (asRatNum v).getD 0

/-- Shape conditions under which the selection loop steps over a tensor
field without crashing: absent closest feature, or a well-formed cells
container, with a paired numeric distance when the cell set is
non-empty. -/
def featureShapeOk (mf : Dict) (tf : TensorField) : Bool :=
  match dlookup mf (closestFeatureKey tf) with
  | none => true
  | some cv =>
    match pySubscript cv "cells" with
    | .error _ => false
    | .ok cells =>
      match pyLen cells with
      | .error _ => false
      | .ok n =>
        if n > 0 then
          match dlookup mf (distanceFeatureKey tf) with
          | some dv => (asRatNum dv).isSome
          | none => false
        else true

/-- The (distance, field) pair a tensor field contributes to the
selection when its closest-match cell set is non-empty. -/
def eligPair (mf : Dict) (tf : TensorField) : Option (Value × TensorField) :=
  match dlookup mf (closestFeatureKey tf) with
  | none => none
  | some cv =>
    match pySubscript cv "cells" with
    | .error _ => none
    | .ok cells =>
      match pyLen cells with
      | .error _ => none
      | .ok n =>
        if n > 0 then
          match dlookup mf (distanceFeatureKey tf) with
          | some dv => if (asRatNum dv).isSome then some (dv, tf) else none
          | none => none
        else none

/-- The eligible (distance, field) pairs in schema iteration order. -/
def eligiblePairs (mf : Dict) (tfs : List TensorField) : List (Value × TensorField) :=
  tfs.filterMap (eligPair mf)

/-- The pure strict-minimum fold the selection loop implements. -/
def argminFoldV (acc : Option (Value × TensorField))
    (ps : List (Value × TensorField)) : Option (Value × TensorField) :=
  ps.foldl (fun a p =>
    match a with
    | none => some p
    | some (mv, _) => if ratOf p.1 < ratOf mv then some p else a) acc

theorem argminFoldV_cons (acc : Option (Value × TensorField))
    (p : Value × TensorField) (ps : List (Value × TensorField)) :
    argminFoldV acc (p :: ps) =
      argminFoldV (match acc with
        | none => some p
        | some (mv, _) => if ratOf p.1 < ratOf mv then some p else acc) ps := rfl

/-- The selection loop computes the strict-minimum fold over the eligible
pairs, provided every tensor field's features are well-shaped and the
accumulator holds a numeric distance. -/
theorem selectClosestLoop_eq_fold (mf : Dict) :
    ∀ (tfs : List TensorField) (acc : Option (Value × TensorField)),
      (∀ tf ∈ tfs, featureShapeOk mf tf = true) →
      (match acc with
        | none => True
        | some (mv, _) => (asRatNum mv).isSome = true) →
      selectClosestLoop mf tfs acc =
        .ok (argminFoldV acc (tfs.filterMap (eligPair mf))) := by
  intro tfs
  induction tfs with
  | nil => intro acc _ _; rfl
  | cons tf rest ih =>
    intro acc hshape hacc
    have hsh := hshape tf (by simp)
    have hrest : ∀ tf' ∈ rest, featureShapeOk mf tf' = true :=
      fun tf' h => hshape tf' (by simp [h])
    rw [selectClosestLoop]
    rcases hcv : dlookup mf (closestFeatureKey tf) with _ | cv
    · have hc : dcontains mf (closestFeatureKey tf) = false := by
        rw [dcontains_eq_isSome, hcv]; rfl
      rw [if_neg (by simp [hc])]
      have hep : eligPair mf tf = none := by rw [eligPair, hcv]
      rw [List.filterMap_cons, hep]
      exact ih acc hrest hacc
    · have hc : dcontains mf (closestFeatureKey tf) = true := by
        rw [dcontains_eq_isSome, hcv]; rfl
      rw [if_pos hc]
      simp only [featureShapeOk, hcv] at hsh
      simp only [hcv, exBindOk, exBindOkE]
      rcases hsub : pySubscript cv "cells" with e | cells
      · simp only [hsub] at hsh
        exact Bool.noConfusion hsh
      · simp only [hsub] at hsh
        simp only [hsub, exBindOk, exBindOkE]
        rcases hlen : pyLen cells with e | n
        · simp only [hlen] at hsh
          exact Bool.noConfusion hsh
        · simp only [hlen] at hsh
          simp only [hlen, exBindOk, exBindOkE]
          by_cases hn : n > 0
          · rw [if_pos hn] at hsh ⊢
            rcases hdist : dlookup mf (distanceFeatureKey tf) with _ | dv
            · simp only [hdist] at hsh
              exact Bool.noConfusion hsh
            · simp only [hdist] at hsh ⊢
              have hep : eligPair mf tf = some (dv, tf) := by
                rw [eligPair, hcv]
                simp only [hsub, hlen, if_pos hn, hdist, if_pos hsh]
              rw [List.filterMap_cons, hep]
              cases acc with
              | none =>
                simp only [exBindOk, exBindOkE]
                rw [argminFoldV_cons]
                exact ih (some (dv, tf)) hrest (by simp [hsh])
              | some p =>
                obtain ⟨mv, tf0⟩ := p
                rcases Option.isSome_iff_exists.mp hacc with ⟨y, hy⟩
                rcases Option.isSome_iff_exists.mp hsh with ⟨x, hx⟩
                have hplt : pyLt dv mv = .ok (decide (x < y)) := by
                  rw [pyLt, hx, hy]
                simp only [hplt, exBindOk, exBindOkE]
                have hrx : ratOf dv = x := by rw [ratOf, hx]; rfl
                have hry : ratOf mv = y := by rw [ratOf, hy]; rfl
                rw [argminFoldV_cons]
                simp only [hrx, hry]
                by_cases hxy : x < y
                · rw [if_pos (by simpa using hxy), if_pos hxy]
                  exact ih (some (dv, tf)) hrest (by simp [hx])
                · rw [if_neg (by simpa using hxy), if_neg hxy]
                  exact ih (some (mv, tf0)) hrest (by simp [hy])
          · rw [if_neg hn] at hsh ⊢
            have hep : eligPair mf tf = none := by
              rw [eligPair, hcv]
              simp only [hsub, hlen, if_neg hn]
            rw [List.filterMap_cons, hep]
            exact ih acc hrest hacc

/-- The strict-minimum fold selects the first pair attaining the minimum
value: everything before it is strictly greater, everything after it is
greater or equal. -/
theorem argminFoldV_spec :
    ∀ (ps : List (Value × TensorField)) (p0 : Value × TensorField),
      ∃ r pre post, argminFoldV (some p0) ps = some r ∧
        p0 :: ps = pre ++ r :: post ∧
        (∀ q ∈ pre, ratOf r.1 < ratOf q.1) ∧
        (∀ q ∈ post, ratOf r.1 ≤ ratOf q.1) := by
  intro ps
  induction ps with
  | nil =>
    intro p0
    exact ⟨p0, [], [], rfl, rfl, by simp, by simp⟩
  | cons q ps ih =>
    intro p0
    obtain ⟨mv0, tf0⟩ := p0
    by_cases hlt : ratOf q.1 < ratOf mv0
    · have hstep : argminFoldV (some (mv0, tf0)) (q :: ps) = argminFoldV (some q) ps := by
        rw [argminFoldV_cons]
        simp [hlt]
      rcases ih q with ⟨r, pre, post, hfold, hsplit, hpre, hpost⟩
      have hrq : ratOf r.1 ≤ ratOf q.1 := by
        cases pre with
        | nil =>
          injection hsplit with h1 _
          rw [h1]
        | cons a pre' =>
          injection hsplit with h1 _
          exact le_of_lt (h1 ▸ hpre a (by simp))
      refine ⟨r, (mv0, tf0) :: pre, post, by rw [hstep, hfold], ?_, ?_, hpost⟩
      · rw [List.cons_append, hsplit]
      · intro p hp
        rcases List.mem_cons.mp hp with h | h
        · rw [h]
          exact lt_of_le_of_lt hrq hlt
        · exact hpre p h
    · have hstep : argminFoldV (some (mv0, tf0)) (q :: ps) =
          argminFoldV (some (mv0, tf0)) ps := by
        rw [argminFoldV_cons]
        simp [hlt]
      have hle : ratOf mv0 ≤ ratOf q.1 := le_of_not_lt hlt
      rcases ih (mv0, tf0) with ⟨r, pre, post, hfold, hsplit, hpre, hpost⟩
      cases pre with
      | nil =>
        injection hsplit with h1 h2
        refine ⟨r, [], q :: post, by rw [hstep, hfold], ?_, by simp, ?_⟩
        · rw [List.nil_append, h2, h1]
        · intro p hp
          rcases List.mem_cons.mp hp with h | h
          · rw [h, ← h1]
            exact hle
          · exact hpost p h
      | cons a pre' =>
        injection hsplit with h1 h2
        refine ⟨r, (mv0, tf0) :: q :: pre', post, by rw [hstep, hfold], ?_, ?_, hpost⟩
        · rw [List.cons_append, List.cons_append, h2]
          rfl
        · intro p hp
          have hra : ratOf r.1 < ratOf mv0 := by
            have := hpre a (by simp)
            rw [← h1] at this
            exact this
          rcases List.mem_cons.mp hp with h | h
          · rw [h]
            exact hra
          · rcases List.mem_cons.mp h with h' | h'
            · rw [h']
              exact lt_of_lt_of_le hra hle
            · exact hpre p (by simp [h'])

/-- C8: in a match-diagnostics map where the features are well-shaped and
at least two tensor fields are eligible (non-empty closest-match cell
sets), the selection loop of `_extract_highlights` picks the eligible
field whose distance is the global minimum — everything earlier in schema
iteration order is strictly worse, so exact ties keep the first field —
regardless of where the minimum sits in the iteration order. -/
theorem highlight_min_distance_selection (idx : StructuredMarqoIndex) (mf : Dict)
    (hshape : ∀ tf ∈ idx.tensor_fields, featureShapeOk mf tf = true)
    (hcount : 2 ≤ (eligiblePairs mf idx.tensor_fields).length) :
    ∃ dv ctf pre post,
      selectClosestLoop mf idx.tensor_fields none = .ok (some (dv, ctf)) ∧
      eligiblePairs mf idx.tensor_fields = pre ++ (dv, ctf) :: post ∧
      (∀ p ∈ pre, ratOf dv < ratOf p.1) ∧
      (∀ p ∈ post, ratOf dv ≤ ratOf p.1) := by
  have hloop := selectClosestLoop_eq_fold mf idx.tensor_fields none hshape trivial
  rcases helig : eligiblePairs mf idx.tensor_fields with _ | ⟨p0, ps⟩
  · rw [helig] at hcount
    simp at hcount
  · rcases argminFoldV_spec ps p0 with ⟨r, pre, post, hfold, hsplit, hpre, hpost⟩
    refine ⟨r.1, r.2, pre, post, ?_, ?_, hpre, hpost⟩
    · rw [hloop]
      have helig2 : List.filterMap (eligPair mf) idx.tensor_fields = p0 :: ps := helig
      rw [helig2, show argminFoldV none (p0 :: ps) = argminFoldV (some p0) ps from rfl, hfold]
    · exact hsplit

/-- A two-tensor-field schema for the C8 witness. -/
def idxC8 : StructuredMarqoIndex :=
  { name := "idx8", schema_name := "sch8", fields := [],
    tensor_fields :=
      [ { name := "t1", chunk_field_name := "c1", embeddings_field_name := "e1" },
        { name := "t2", chunk_field_name := "c2", embeddings_field_name := "e2" } ] }

/-- Match features for the C8 witness: both fields eligible, distances
2/5 (= 0.4) and 1/5 (= 0.2). -/
def mfC8 : Dict :=
  [("closest(e1)", .vobj [("cells", .vobj [("0", .vfloat 1)])]),
   ("distance(field,e1)", .vfloat (mkRat 2 5)),
   ("closest(e2)", .vobj [("cells", .vobj [("1", .vfloat 1)])]),
   ("distance(field,e2)", .vfloat (mkRat 1 5))]

/-- Match features with exactly equal distances, for the tie case. -/
def mfC8tie : Dict :=
  [("closest(e1)", .vobj [("cells", .vobj [("0", .vfloat 1)])]),
   ("distance(field,e1)", .vfloat (mkRat 1 5)),
   ("closest(e2)", .vobj [("cells", .vobj [("1", .vfloat 1)])]),
   ("distance(field,e2)", .vfloat (mkRat 1 5))]

/-- C8 witness: with distances 0.4 then 0.2 the later field `t2` wins
(global minimum, despite iteration order), and on an exact tie the first
field `t1` in schema order wins. -/
theorem highlight_min_distance_selection_witness :
    (∃ dv ctf pre post,
      selectClosestLoop mfC8 idxC8.tensor_fields none = .ok (some (dv, ctf)) ∧
      eligiblePairs mfC8 idxC8.tensor_fields = pre ++ (dv, ctf) :: post ∧
      (∀ p ∈ pre, ratOf dv < ratOf p.1) ∧
      (∀ p ∈ post, ratOf dv ≤ ratOf p.1)) ∧
    selectClosestLoop mfC8 idxC8.tensor_fields none = .ok (some (.vfloat (mkRat 1 5),
      { name := "t2", chunk_field_name := "c2", embeddings_field_name := "e2" })) ∧
    selectClosestLoop mfC8tie idxC8.tensor_fields none = .ok (some (.vfloat (mkRat 1 5),
      { name := "t1", chunk_field_name := "c1", embeddings_field_name := "e1" })) :=
  ⟨highlight_min_distance_selection idxC8 mfC8 (by decide) (by decide),
   by decide, by decide⟩

/-! ## Claim C1 — the marshaling round trip

The spec's data-model invariant (§3): every physical wire field name is
unique across the lexical, filter, chunk and embedding roles, and clear
of the reserved wire names.  `WFIndex` captures this. -/

/-- All lookup keys a field contributes to `all_field_map`: its logical
name and its physical storage names. -/
def fieldKeys (f : MarqoField) : List String :=
  [f.name] ++ f.lexical_field_name.toList ++ f.filter_field_name.toList

/-- The physical names of a tensor field's sub-fields. -/
def subKeys (tf : TensorField) : List String :=
  [tf.chunk_field_name, tf.embeddings_field_name]

/-- Reserved wire-document field names. -/
def reservedKeys : List String :=
  [FIELD_ID, FIELD_VECTOR_COUNT, FIELD_SCORE_MODIFIERS, VESPA_DOC_SDDOCNAME,
   VESPA_DOC_MATCH_FEATURES]

/-- Well-formedness of a schema view: all wire-level keys are pairwise
distinct across fields, tensor sub-fields and the reserved names, and
logical field names stay clear of the reserved domain-document keys. -/
def WFIndex (idx : StructuredMarqoIndex) : Prop :=
  (idx.fields.flatMap fieldKeys ++ idx.tensor_fields.flatMap subKeys ++
    reservedKeys).Nodup ∧
  (∀ f ∈ idx.fields, f.name ≠ MARQO_DOC_ID ∧ f.name ≠ MARQO_DOC_TENSORS)

instance (idx : StructuredMarqoIndex) : Decidable (WFIndex idx) := by
  unfold WFIndex
  infer_instance

theorem mem_fieldKeys_iff (f : MarqoField) (k : String) :
    k ∈ fieldKeys f ↔
      (f.name = k ∨ f.lexical_field_name = some k ∨ f.filter_field_name = some k) := by
  rcases hl : f.lexical_field_name with _ | ln <;>
    rcases hf : f.filter_field_name with _ | fn <;>
    simp [fieldKeys, hl, hf, eq_comm]

theorem mem_subKeys_iff (tf : TensorField) (k : String) :
    k ∈ subKeys tf ↔ (tf.chunk_field_name = k ∨ tf.embeddings_field_name = k) := by
  simp [subKeys, eq_comm]

/-- Distinct fields of a well-formed index have disjoint key sets. -/
theorem wf_fieldKeys_disjoint (idx : StructuredMarqoIndex) (hwf : WFIndex idx) :
    ∀ f1 ∈ idx.fields, ∀ f2 ∈ idx.fields, f1 ≠ f2 →
      List.Disjoint (fieldKeys f1) (fieldKeys f2) := by
  have h1 : (idx.fields.flatMap fieldKeys).Nodup :=
    ((hwf.1.of_append_left).of_append_left)
  have hp := (List.nodup_flatMap.mp h1).2
  intro f1 h1' f2 h2' hne
  exact hp.forall (fun a b hab => List.Disjoint.symm hab) h1' h2' hne

/-- Distinct tensor fields of a well-formed index have disjoint sub-key
sets. -/
theorem wf_subKeys_disjoint (idx : StructuredMarqoIndex) (hwf : WFIndex idx) :
    ∀ t1 ∈ idx.tensor_fields, ∀ t2 ∈ idx.tensor_fields, t1 ≠ t2 →
      List.Disjoint (subKeys t1) (subKeys t2) := by
  have h1 : (idx.tensor_fields.flatMap subKeys).Nodup :=
    (hwf.1.of_append_left).of_append_right
  have hp := (List.nodup_flatMap.mp h1).2
  intro t1 h1' t2 h2' hne
  exact hp.forall (fun a b hab => List.Disjoint.symm hab) h1' h2' hne

/-- Field keys are disjoint from tensor sub-keys. -/
theorem wf_field_sub_disjoint (idx : StructuredMarqoIndex) (hwf : WFIndex idx) :
    List.Disjoint (idx.fields.flatMap fieldKeys) (idx.tensor_fields.flatMap subKeys) :=
  List.disjoint_of_nodup_append (hwf.1.of_append_left)

/-- Field keys and tensor sub-keys are disjoint from the reserved names. -/
theorem wf_reserved_disjoint (idx : StructuredMarqoIndex) (hwf : WFIndex idx) :
    List.Disjoint (idx.fields.flatMap fieldKeys ++ idx.tensor_fields.flatMap subKeys)
      reservedKeys :=
  List.disjoint_of_nodup_append hwf.1

/-- Each field's own key list is duplicate-free. -/
theorem wf_fieldKeys_nodup (idx : StructuredMarqoIndex) (hwf : WFIndex idx) :
    ∀ f ∈ idx.fields, (fieldKeys f).Nodup := by
  have h1 : (idx.fields.flatMap fieldKeys).Nodup :=
    ((hwf.1.of_append_left).of_append_left)
  exact (List.nodup_flatMap.mp h1).1

/-- Each tensor field's sub-key list is duplicate-free. -/
theorem wf_subKeys_nodup (idx : StructuredMarqoIndex) (hwf : WFIndex idx) :
    ∀ tf ∈ idx.tensor_fields, (subKeys tf).Nodup := by
  have h1 : (idx.tensor_fields.flatMap subKeys).Nodup :=
    (hwf.1.of_append_left).of_append_right
  exact (List.nodup_flatMap.mp h1).1

theorem find?_eq_some_of_unique {α : Type} (p : α → Bool) (l : List α) (a : α)
    (ha : a ∈ l) (hpa : p a = true) (huniq : ∀ b ∈ l, p b = true → b = a) :
    l.find? p = some a := by
  induction l with
  | nil => cases ha
  | cons b rest ih =>
    by_cases hb : p b = true
    · rw [List.find?_cons_of_pos _ hb, huniq b (by simp) hb]
    · have hab : a ≠ b := fun he => hb (he ▸ hpa)
      have ha' : a ∈ rest := by
        rcases List.mem_cons.mp ha with h | h
        · exact absurd h hab
        · exact h
      rw [List.find?_cons_of_neg _ hb]
      exact ih ha' (fun c hc hpc => huniq c (by simp [hc]) hpc)

/-- In a well-formed index, `all_field_map` resolves any key of a field
to that field. -/
theorem all_field_map_eq_of_mem (idx : StructuredMarqoIndex) (hwf : WFIndex idx)
    (fld : MarqoField) (k : String) (hf : fld ∈ idx.fields) (hk : k ∈ fieldKeys fld) :
    all_field_map idx k = some fld := by
  rw [all_field_map]
  apply find?_eq_some_of_unique
  · exact hf
  · simp only [decide_eq_true_eq]
    exact (mem_fieldKeys_iff fld k).mp hk
  · intro f2 hf2 hp2
    by_contra hne
    exact wf_fieldKeys_disjoint idx hwf f2 hf2 fld hf hne
      ((mem_fieldKeys_iff f2 k).mpr (by simpa using hp2)) hk

/-- In a well-formed index, a key belonging to no field resolves to
nothing in `all_field_map`. -/
theorem all_field_map_eq_none (idx : StructuredMarqoIndex) (k : String)
    (h : ∀ f ∈ idx.fields, k ∉ fieldKeys f) : all_field_map idx k = none := by
  rw [all_field_map, List.find?_eq_none]
  intro f hf
  simp only [decide_eq_true_eq]
  intro hp
  exact h f hf ((mem_fieldKeys_iff f k).mpr hp)

/-- In a well-formed index, `tensor_subfield_map` resolves any sub-key of
a tensor field to that tensor field. -/
theorem tensor_subfield_map_eq_of_mem (idx : StructuredMarqoIndex) (hwf : WFIndex idx)
    (tf : TensorField) (k : String) (ht : tf ∈ idx.tensor_fields) (hk : k ∈ subKeys tf) :
    tensor_subfield_map idx k = some tf := by
  rw [tensor_subfield_map]
  apply find?_eq_some_of_unique
  · exact ht
  · simp only [decide_eq_true_eq]
    exact (mem_subKeys_iff tf k).mp hk
  · intro t2 ht2 hp2
    by_contra hne
    exact wf_subKeys_disjoint idx hwf t2 ht2 tf ht hne
      ((mem_subKeys_iff t2 k).mpr (by simpa using hp2)) hk

/-- A key belonging to no tensor field resolves to nothing in
`tensor_subfield_map`. -/
theorem tensor_subfield_map_eq_none (idx : StructuredMarqoIndex) (k : String)
    (h : ∀ tf ∈ idx.tensor_fields, k ∉ subKeys tf) : tensor_subfield_map idx k = none := by
  rw [tensor_subfield_map, List.find?_eq_none]
  intro tf htf
  simp only [decide_eq_true_eq]
  intro hp
  exact h tf htf ((mem_subKeys_iff tf k).mpr hp)

/-- `field_map` resolution fixes the field's name. -/
theorem field_map_name (idx : StructuredMarqoIndex) (n : String) (fld : MarqoField)
    (h : field_map idx n = some fld) : fld.name = n ∧ fld ∈ idx.fields := by
  rw [field_map] at h
  have h1 := List.find?_some h
  have h2 := List.mem_of_find?_eq_some h
  exact ⟨by simpa using h1, h2⟩

/-- `tensor_field_map` resolution fixes the tensor field's name. -/
theorem tensor_field_map_name (idx : StructuredMarqoIndex) (n : String) (tf : TensorField)
    (h : tensor_field_map idx n = some tf) : tf.name = n ∧ tf ∈ idx.tensor_fields := by
  rw [tensor_field_map] at h
  have h1 := List.find?_some h
  have h2 := List.mem_of_find?_eq_some h
  exact ⟨by simpa using h1, h2⟩

/-! ### Encode-side decomposition -/

/-- The wire value a flat field stores (booleans re-encoded via `int`). -/
def convVal (fld : MarqoField) (v : Value) : Value :=
  if fld.type = FieldType.Bool then pyInt v else v

/-- The wire entries one flat field contributes, in insertion order:
lexical copy, filter copy, or the logical name when neither exists. -/
def entriesOfField (fld : MarqoField) (mv : Value) : List (String × Value) :=
  (fld.lexical_field_name.toList.map (fun n => (n, mv))) ++
  (fld.filter_field_name.toList.map (fun n => (n, mv))) ++
  (if fld.lexical_field_name = none ∧ fld.filter_field_name = none then
    [(fld.name, mv)] else [])

/-- The physical keys a flat field writes. -/
def storageKeys (fld : MarqoField) : List String :=
  fld.lexical_field_name.toList ++ fld.filter_field_name.toList ++
  (if fld.lexical_field_name = none ∧ fld.filter_field_name = none then
    [fld.name] else [])

theorem entriesOfField_keys (fld : MarqoField) (mv : Value) :
    (entriesOfField fld mv).map Prod.fst = storageKeys fld := by
  rcases hl : fld.lexical_field_name with _ | ln <;>
    rcases hf : fld.filter_field_name with _ | fn <;>
    simp [entriesOfField, storageKeys, hl, hf]

theorem storageKeys_sub_fieldKeys (fld : MarqoField) : storageKeys fld ⊆ fieldKeys fld := by
  rcases hl : fld.lexical_field_name with _ | ln <;>
    rcases hf : fld.filter_field_name with _ | fn <;>
    simp [storageKeys, fieldKeys, hl, hf, List.subset_def]

theorem storageKeys_nodup (fld : MarqoField) (hnd : (fieldKeys fld).Nodup) :
    (storageKeys fld).Nodup := by
  rcases hl : fld.lexical_field_name with _ | ln <;>
    rcases hf : fld.filter_field_name with _ | fn <;>
    simp_all [storageKeys, fieldKeys, hl, hf]

/-- The wire entries a flat document field contributes. -/
def wireEntries (idx : StructuredMarqoIndex) (p : String × Value) : List (String × Value) :=
  match field_map idx p.1 with
  | some fld => entriesOfField fld (convVal fld p.2)
  | none => []

/-- The score-modifier entries a flat document field contributes. -/
def smEntries (idx : StructuredMarqoIndex) (p : String × Value) : List (String × Value) :=
  match field_map idx p.1 with
  | some fld =>
    if fld.features.contains FieldFeature.ScoreModifier then
      [(fld.name, convVal fld p.2)]
    else []
  | none => []

/-- The wire entries a tensor section entry contributes. -/
def tensorEntries (idx : StructuredMarqoIndex) (p : String × TensorContent) :
    List (String × Value) :=
  match tensor_field_map idx p.1 with
  | some tf =>
    [(tf.chunk_field_name, .varr (p.2.chunks.map .vstr)),
     (tf.embeddings_field_name, .vobj (indexedEmbeddings p.2.embeddings))]
  | none => []

/-- The keys of a dictionary, in order. -/
def dictKeys (d : Dict) : List String := d.map Prod.fst

theorem dictKeys_append (d1 d2 : Dict) :
    dictKeys (d1 ++ d2) = dictKeys d1 ++ dictKeys d2 := List.map_append _ d1 d2

theorem dcontains_false_iff (d : Dict) (k : String) :
    dcontains d k = false ↔ k ∉ dictKeys d := by
  rw [dcontains]
  constructor
  · intro h hk
    rcases List.mem_map.mp hk with ⟨p, hp, hpk⟩
    have := List.find?_eq_none.mp (by
      rcases hfind : d.find? (fun p => p.1 = k) with _ | q
      · rfl
      · rw [hfind] at h; simp at h) p hp
    simp [hpk] at this
  · intro hk
    rcases hfind : d.find? (fun p => p.1 = k) with _ | q
    · rw [hfind]; rfl
    · exfalso
      apply hk
      have h1 := List.mem_of_find?_eq_some hfind
      have h2 := List.find?_some hfind
      exact List.mem_map.mpr ⟨q, h1, by simpa using h2⟩

theorem dcontains_append (d1 d2 : Dict) (k : String) :
    dcontains (d1 ++ d2) k = (dcontains d1 k || dcontains d2 k) := by
  rw [dcontains_eq_isSome, dcontains_eq_isSome, dcontains_eq_isSome, dlookup_append]
  rcases h : dlookup d1 k with _ | v <;> simp

/-- A flat-field routing step with fresh keys is an append. -/
theorem flatFieldLoopStep_append (vf : Dict) (fld : MarqoField) (mv : Value)
    (hfresh : ∀ k ∈ storageKeys fld, dcontains vf k = false)
    (hnd : (storageKeys fld).Nodup) :
    flatFieldLoopStep vf fld mv = vf ++ entriesOfField fld mv := by
  rcases hl : fld.lexical_field_name with _ | ln <;>
    rcases hf : fld.filter_field_name with _ | fn
  · simp only [flatFieldLoopStep, hl, hf]
    rw [if_pos (by simp)]
    rw [dinsert_fresh _ _ _ (hfresh fld.name (by simp [storageKeys, hl, hf]))]
    simp [entriesOfField, hl, hf]
  · simp only [flatFieldLoopStep, hl, hf]
    rw [if_neg (by simp)]
    rw [dinsert_fresh _ _ _ (hfresh fn (by simp [storageKeys, hl, hf]))]
    simp [entriesOfField, hl, hf]
  · simp only [flatFieldLoopStep, hl, hf]
    rw [if_neg (by simp)]
    rw [dinsert_fresh _ _ _ (hfresh ln (by simp [storageKeys, hl, hf]))]
    simp [entriesOfField, hl, hf]
  · have hlnfn : ln ≠ fn := by
      rw [storageKeys, hl, hf] at hnd
      simpa using hnd
    simp only [flatFieldLoopStep, hl, hf]
    rw [if_neg (by simp)]
    rw [dinsert_fresh _ _ _ (hfresh ln (by simp [storageKeys, hl, hf]))]
    rw [dinsert_fresh _ _ _ (by
      rw [dcontains_append, hfresh fn (by simp [storageKeys, hl, hf])]
      simp [dcontains, List.find?, hlnfn, Ne.symm hlnfn])]
    simp [entriesOfField, hl, hf]

theorem marshalFlatLoop_facts (idx : StructuredMarqoIndex) :
    ∀ (fs : List (String × Value)) (vf sm : Dict) (r : Dict × Dict),
      marshalFlatLoop idx fs vf sm = .ok r →
      ∀ p ∈ fs, ∃ fld, field_map idx p.1 = some fld ∧
        verify_marqo_field_type fld.type p.2 = true := by
  intro fs
  induction fs with
  | nil => intro vf sm r _ p hp; cases hp
  | cons q rest ih =>
    intro vf sm r h p hp
    rw [marshalFlatLoop] at h
    rcases hfld : field_map idx q.1 with _ | fld
    · simp only [hfld] at h
      exact absurd h (by simp)
    · simp only [hfld] at h
      by_cases hv : verify_marqo_field_type fld.type q.2 = true
      · rw [if_pos hv] at h
        rcases List.mem_cons.mp hp with h' | h'
        · exact ⟨fld, h' ▸ hfld, h' ▸ hv⟩
        · exact ih _ _ _ h p h'
      · rw [if_neg hv] at h; exact absurd h (by simp)

theorem marshalTensorLoop_facts (idx : StructuredMarqoIndex) :
    ∀ (ts : List (String × TensorContent)) (vf : Dict) (cnt : Int) (r : Dict × Int),
      marshalTensorLoop idx ts vf cnt = .ok r →
      ∀ p ∈ ts, ∃ tf, tensor_field_map idx p.1 = some tf := by
  intro ts
  induction ts with
  | nil => intro vf cnt r _ p hp; cases hp
  | cons q rest ih =>
    intro vf cnt r h p hp
    rw [marshalTensorLoop] at h
    rcases htf : tensor_field_map idx q.1 with _ | tf
    · simp only [htf] at h
      exact absurd h (by simp)
    · simp only [htf] at h
      rcases List.mem_cons.mp hp with h' | h'
      · exact ⟨tf, h' ▸ htf⟩
      · exact ih _ _ _ h p h'

theorem marshalFlatLoop_decomp (idx : StructuredMarqoIndex) :
    ∀ (fs : List (String × Value)) (vf sm vf' sm' : Dict),
      marshalFlatLoop idx fs vf sm = .ok (vf', sm') →
      (dictKeys vf ++ fs.flatMap (fun p => (wireEntries idx p).map Prod.fst)).Nodup →
      (dictKeys sm ++ fs.flatMap (fun p => (smEntries idx p).map Prod.fst)).Nodup →
      vf' = vf ++ fs.flatMap (wireEntries idx) ∧
      sm' = sm ++ fs.flatMap (smEntries idx) := by
  intro fs
  induction fs with
  | nil =>
    intro vf sm vf' sm' h _ _
    rw [marshalFlatLoop] at h
    injection h with h1
    injection h1 with ha hb
    simp [← ha, ← hb]
  | cons p rest ih =>
    intro vf sm vf' sm' h hndv hnds
    rw [marshalFlatLoop] at h
    rcases hfld : field_map idx p.1 with _ | fld
    · simp only [hfld] at h
      exact absurd h (by simp)
    · simp only [hfld] at h
      by_cases hv : verify_marqo_field_type fld.type p.2 = true
      · rw [if_pos hv] at h
        have hwe : wireEntries idx p = entriesOfField fld (convVal fld p.2) := by
          rw [wireEntries, hfld]
        have hse : smEntries idx p =
            (if fld.features.contains FieldFeature.ScoreModifier then
              [(fld.name, convVal fld p.2)] else []) := by
          rw [smEntries, hfld]
        simp only [List.flatMap_cons] at hndv hnds
        rw [hwe, entriesOfField_keys] at hndv
        rw [hse] at hnds
        have hdisv := List.disjoint_of_nodup_append hndv
        have hndv_r := hndv.of_append_right
        have hstorND : (storageKeys fld).Nodup := hndv_r.of_append_left
        have hfresh : ∀ k ∈ storageKeys fld, dcontains vf k = false := by
          intro k hk
          rw [dcontains_false_iff]
          intro hkv
          exact hdisv hkv (List.mem_append_left _ hk)
        have hconv : (if fld.type = FieldType.Bool then pyInt p.2 else p.2) =
            convVal fld p.2 := rfl
        rw [hconv, flatFieldLoopStep_append vf fld (convVal fld p.2) hfresh hstorND] at h
        -- the staged score-modifier dictionary
        have hsmstep : (if fld.features.contains FieldFeature.ScoreModifier then
              dinsert sm fld.name (convVal fld p.2) else sm) =
            sm ++ (if fld.features.contains FieldFeature.ScoreModifier then
              [(fld.name, convVal fld p.2)] else []) := by
          by_cases hfeat : fld.features.contains FieldFeature.ScoreModifier = true
          · rw [if_pos hfeat, if_pos hfeat]
            apply dinsert_fresh
            rw [dcontains_false_iff]
            intro hks
            exact (List.disjoint_of_nodup_append hnds) hks
              (List.mem_append_left _ (by rw [if_pos hfeat]; simp))
          · rw [if_neg hfeat, if_neg hfeat, List.append_nil]
        rw [hsmstep] at h
        have hndv' : (dictKeys (vf ++ entriesOfField fld (convVal fld p.2)) ++
            rest.flatMap (fun p => (wireEntries idx p).map Prod.fst)).Nodup := by
          rw [dictKeys_append,
            show dictKeys (entriesOfField fld (convVal fld p.2)) = storageKeys fld from
              entriesOfField_keys fld _,
            List.append_assoc]
          exact hndv
        have hnds' : (dictKeys (sm ++ (if fld.features.contains FieldFeature.ScoreModifier
              then [(fld.name, convVal fld p.2)] else [])) ++
            rest.flatMap (fun p => (smEntries idx p).map Prod.fst)).Nodup := by
          rw [dictKeys_append, List.append_assoc]
          exact hnds
        rcases ih _ _ _ _ h hndv' hnds' with ⟨hvf, hsm⟩
        constructor
        · rw [hvf, List.append_assoc, List.flatMap_cons, hwe]
        · rw [hsm, List.append_assoc, List.flatMap_cons, hse]
      · rw [if_neg hv] at h; exact absurd h (by simp)

/-- Keys written by one tensor field's wire entries. -/
theorem tensorEntries_keys (idx : StructuredMarqoIndex) (q : String × TensorContent)
    (tf : TensorField) (h : tensor_field_map idx q.1 = some tf) :
    (tensorEntries idx q).map Prod.fst = subKeys tf := by
  simp only [tensorEntries, h]
  rfl

theorem marshalTensorLoop_decomp (idx : StructuredMarqoIndex) :
    ∀ (ts : List (String × TensorContent)) (vf : Dict) (cnt : Int) (vf' : Dict) (cnt' : Int),
      marshalTensorLoop idx ts vf cnt = .ok (vf', cnt') →
      (dictKeys vf ++ ts.flatMap (fun q => (tensorEntries idx q).map Prod.fst)).Nodup →
      vf' = vf ++ ts.flatMap (tensorEntries idx) := by
  intro ts
  induction ts with
  | nil =>
    intro vf cnt vf' cnt' h _
    rw [marshalTensorLoop] at h
    injection h with h1
    injection h1 with ha _
    simp [← ha]
  | cons q rest ih =>
    intro vf cnt vf' cnt' h hnd
    rw [marshalTensorLoop] at h
    rcases htf : tensor_field_map idx q.1 with _ | tf
    · simp only [htf] at h
      exact absurd h (by simp)
    · simp only [htf] at h
      have hte : tensorEntries idx q =
          [(tf.chunk_field_name, .varr (q.2.chunks.map .vstr)),
           (tf.embeddings_field_name, .vobj (indexedEmbeddings q.2.embeddings))] := by
        simp only [tensorEntries, htf]
      have htk : (tensorEntries idx q).map Prod.fst = subKeys tf := by
        rw [hte]; rfl
      simp only [List.flatMap_cons] at hnd
      rw [htk] at hnd
      have hsub : (subKeys tf).Nodup := (hnd.of_append_right).of_append_left
      have hdis : (dictKeys vf).Disjoint (subKeys tf ++
          rest.flatMap fun q => List.map Prod.fst (tensorEntries idx q)) :=
        List.disjoint_of_nodup_append hnd
      have hcne : tf.chunk_field_name ≠ tf.embeddings_field_name := by
        simpa [subKeys] using hsub
      have hc1 : dcontains vf tf.chunk_field_name = false := by
        rw [dcontains_false_iff]
        intro hk
        exact hdis hk (List.mem_append_left _ (by simp [subKeys]))
      have hc2 : dcontains
          (vf ++ [(tf.chunk_field_name, Value.varr (q.2.chunks.map Value.vstr))])
          tf.embeddings_field_name = false := by
        rw [dcontains_append]
        have he1 : dcontains vf tf.embeddings_field_name = false := by
          rw [dcontains_false_iff]
          intro hk
          exact hdis hk (List.mem_append_left _ (by simp [subKeys]))
        rw [he1]
        simp [dcontains, List.find?, decide_eq_false hcne]
      rw [dinsert_fresh _ _ _ hc1, dinsert_fresh _ _ _ hc2] at h
      rw [show (vf ++ [(tf.chunk_field_name, Value.varr (q.2.chunks.map Value.vstr))]) ++
          [(tf.embeddings_field_name, Value.vobj (indexedEmbeddings q.2.embeddings))] =
          vf ++ [(tf.chunk_field_name, Value.varr (q.2.chunks.map Value.vstr)),
            (tf.embeddings_field_name, Value.vobj (indexedEmbeddings q.2.embeddings))] by
        simp] at h
      have hnd' : (dictKeys (vf ++
          [(tf.chunk_field_name, Value.varr (q.2.chunks.map Value.vstr)),
           (tf.embeddings_field_name, Value.vobj (indexedEmbeddings q.2.embeddings))]) ++
          rest.flatMap fun q => List.map Prod.fst (tensorEntries idx q)).Nodup := by
        rw [dictKeys_append,
          show dictKeys [(tf.chunk_field_name, Value.varr (q.2.chunks.map Value.vstr)),
            (tf.embeddings_field_name, Value.vobj (indexedEmbeddings q.2.embeddings))] =
            subKeys tf from rfl,
          List.append_assoc]
        exact hnd
      have hres := ih _ _ _ _ h hnd'
      rw [hres, List.flatMap_cons, hte, List.append_assoc]

/-- Splitting the decode loop over an append. -/
theorem parseWireFields_append (idx : StructuredMarqoIndex) :
    ∀ (l1 l2 : List (String × Value)) (md md' : Dict),
      parseWireFields idx l1 md = .ok md' →
      parseWireFields idx (l1 ++ l2) md = parseWireFields idx l2 md' := by
  intro l1
  induction l1 with
  | nil =>
    intro l2 md md' h
    rw [parseWireFields] at h
    injection h with h1
    rw [List.nil_append, h1]
  | cons p rest ih =>
    intro l2 md md' h
    rw [parseWireFields] at h
    rw [List.cons_append, parseWireFields]
    rcases hf : parseWireField idx md p.1 p.2 with e | md1
    · rw [hf] at h
      exact absurd h (by simp)
    · rw [hf] at h
      simp only [exBindOk] at h ⊢
      exact ih _ _ _ h

/-- Decoding inverts the wire re-encoding on any value the type check
accepts. -/
theorem decodeWireValue_convVal (fld : MarqoField) (v : Value)
    (hv : verify_marqo_field_type fld.type v = true) :
    decodeWireValue fld (convVal fld v) = .ok v := by
  by_cases hb : fld.type = FieldType.Bool
  · rw [hb] at hv
    rcases v with s | b | n | q | l | o <;>
      simp only [verify_marqo_field_type, pythonTypesFor, List.any_cons,
        List.any_nil, Bool.or_false] at hv
    · exact absurd hv (by simp)
    · rcases b <;>
        simp [decodeWireValue, convVal, hb, pyInt, pyHashable, pyEqInt, pyTruthy]
    · exact absurd hv (by simp)
    · exact absurd hv (by simp)
    · exact absurd hv (by simp)
    · exact absurd hv (by simp)
  · simp [decodeWireValue, convVal, hb]

/-- One entry of the backend presentation `wrapBlocks`. -/
def wrapEntry (idx : StructuredMarqoIndex) (p : String × Value) : String × Value :=
  if idx.tensor_fields.any (fun tf => tf.embeddings_field_name = p.1) then
    (p.1, Value.vobj [("blocks", p.2)])
  else p

theorem wrapBlocks_eq (idx : StructuredMarqoIndex) (vd : VespaDoc) :
    wrapBlocks idx vd =
      { vd with fields? := vd.fields?.map (fun fs => fs.map (wrapEntry idx)) } := rfl

theorem wrapEntry_eq_self (idx : StructuredMarqoIndex) (p : String × Value)
    (h : ∀ tf ∈ idx.tensor_fields, tf.embeddings_field_name ≠ p.1) :
    wrapEntry idx p = p := by
  unfold wrapEntry
  rw [if_neg (by
    intro hc
    rcases List.any_eq_true.mp hc with ⟨tf, htf, hp⟩
    exact h tf htf (by simpa using hp))]

theorem wrapEntry_emb (idx : StructuredMarqoIndex) (p : String × Value) (tf : TensorField)
    (htf : tf ∈ idx.tensor_fields) (h : tf.embeddings_field_name = p.1) :
    wrapEntry idx p = (p.1, Value.vobj [("blocks", p.2)]) := by
  unfold wrapEntry
  rw [if_pos (List.any_eq_true.mpr ⟨tf, htf, by simpa using h⟩)]

theorem map_wrapEntry_id (idx : StructuredMarqoIndex) (l : Dict)
    (h : ∀ p ∈ l, wrapEntry idx p = p) : l.map (wrapEntry idx) = l := by
  induction l with
  | nil => rfl
  | cons p rest ih =>
    rw [List.map_cons, h p (by simp), ih (fun q hq => h q (by simp [hq]))]

theorem map_update_id (l : Dict) (k : String) (v : Value) (h : k ∉ dictKeys l) :
    l.map (fun p => if p.1 = k then (k, v) else p) = l := by
  induction l with
  | nil => rfl
  | cons p rest ih =>
    have h1 : k ∉ dictKeys rest := by
      intro hk
      exact h (by simp [dictKeys] at hk ⊢; exact Or.inr hk)
    have h2 : p.1 ≠ k := by
      intro he
      exact h (by simp [dictKeys, he])
    simp only [List.map_cons, if_neg h2, ih h1]

theorem dinsert_nil (k : String) (v : Value) : dinsert [] k v = [(k, v)] := rfl

theorem dinsert_last (l : Dict) (k : String) (v0 v : Value)
    (h : dcontains l k = false) :
    dinsert (l ++ [(k, v0)]) k v = l ++ [(k, v)] := by
  have hc : dcontains (l ++ [(k, v0)]) k = true := by
    rw [dcontains_append, h]
    simp [dcontains, List.find?]
  rw [dinsert, if_pos hc, List.map_append,
    map_update_id l k v ((dcontains_false_iff l k).mp h)]
  simp

theorem dlookup_last (l : Dict) (k : String) (v : Value) (h : dcontains l k = false) :
    dlookup (l ++ [(k, v)]) k = some v := by
  simp only [dlookup_append, dlookup_none_of_dcontains_false l k h]
  simp [dlookup_cons]

/-- `setTensorSub` on a document with no tensor section yet. -/
theorem setTensorSub_fresh (md : Dict) (tname key : String) (v : Value)
    (h : dcontains md MARQO_DOC_TENSORS = false) :
    setTensorSub md tname key v =
      md ++ [(MARQO_DOC_TENSORS, .vobj [(tname, .vobj [(key, v)])])] := by
  rw [setTensorSub]
  simp only [dlookup_none_of_dcontains_false md MARQO_DOC_TENSORS h, dlookup_nil,
    dinsert_nil]
  rw [dinsert_fresh _ _ _ h]

/-- `setTensorSub` for a new tensor name in an existing tensor section. -/
theorem setTensorSub_push (md0 tens : Dict) (tname key : String) (v : Value)
    (h0 : dcontains md0 MARQO_DOC_TENSORS = false)
    (ht : dcontains tens tname = false) :
    setTensorSub (md0 ++ [(MARQO_DOC_TENSORS, .vobj tens)]) tname key v =
      md0 ++ [(MARQO_DOC_TENSORS, .vobj (tens ++ [(tname, .vobj [(key, v)])]))] := by
  rw [setTensorSub]
  simp only [dlookup_last md0 MARQO_DOC_TENSORS (.vobj tens) h0,
    dlookup_none_of_dcontains_false tens tname ht, dinsert_nil]
  rw [dinsert_fresh tens tname _ ht, dinsert_last md0 MARQO_DOC_TENSORS _ _ h0]

/-- `setTensorSub` for the tensor name last added to the tensor section. -/
theorem setTensorSub_update (md0 tens sub : Dict) (tname key : String) (v : Value)
    (h0 : dcontains md0 MARQO_DOC_TENSORS = false)
    (ht : dcontains tens tname = false) :
    setTensorSub (md0 ++ [(MARQO_DOC_TENSORS, .vobj (tens ++ [(tname, .vobj sub)]))])
        tname key v =
      md0 ++ [(MARQO_DOC_TENSORS,
        .vobj (tens ++ [(tname, .vobj (dinsert sub key v))]))] := by
  rw [setTensorSub]
  simp only [dlookup_last md0 MARQO_DOC_TENSORS _ h0,
    dlookup_last tens tname (.vobj sub) ht]
  rw [dinsert_last tens tname _ _ ht, dinsert_last md0 MARQO_DOC_TENSORS _ _ h0]

/-! ### Resolution of wire keys under a well-formed schema -/

theorem all_field_map_none_of_sub (idx : StructuredMarqoIndex) (hwf : WFIndex idx)
    (tf : TensorField) (htf : tf ∈ idx.tensor_fields) (k : String) (hk : k ∈ subKeys tf) :
    all_field_map idx k = none := by
  apply all_field_map_eq_none
  intro f hf hkf
  exact wf_field_sub_disjoint idx hwf (List.mem_flatMap.mpr ⟨f, hf, hkf⟩)
    (List.mem_flatMap.mpr ⟨tf, htf, hk⟩)

theorem all_field_map_none_of_reserved (idx : StructuredMarqoIndex) (hwf : WFIndex idx)
    (k : String) (hk : k ∈ reservedKeys) : all_field_map idx k = none := by
  apply all_field_map_eq_none
  intro f hf hkf
  exact wf_reserved_disjoint idx hwf
    (List.mem_append_left _ (List.mem_flatMap.mpr ⟨f, hf, hkf⟩)) hk

theorem tensor_subfield_map_none_of_field (idx : StructuredMarqoIndex) (hwf : WFIndex idx)
    (fld : MarqoField) (hf : fld ∈ idx.fields) (k : String) (hk : k ∈ fieldKeys fld) :
    tensor_subfield_map idx k = none := by
  apply tensor_subfield_map_eq_none
  intro tf htf hks
  exact wf_field_sub_disjoint idx hwf (List.mem_flatMap.mpr ⟨fld, hf, hk⟩)
    (List.mem_flatMap.mpr ⟨tf, htf, hks⟩)

theorem tensor_subfield_map_none_of_reserved (idx : StructuredMarqoIndex)
    (hwf : WFIndex idx) (k : String) (hk : k ∈ reservedKeys) :
    tensor_subfield_map idx k = none := by
  apply tensor_subfield_map_eq_none
  intro tf htf hks
  exact wf_reserved_disjoint idx hwf
    (List.mem_append_right _ (List.mem_flatMap.mpr ⟨tf, htf, hks⟩)) hk

/-! ### One decode step on each kind of wire entry -/

theorem parseWireField_id (idx : StructuredMarqoIndex) (hwf : WFIndex idx) (md : Dict)
    (v : Value) :
    parseWireField idx md FIELD_ID v = .ok (dinsert md MARQO_DOC_ID v) := by
  rw [parseWireField]
  simp only [all_field_map_none_of_reserved idx hwf FIELD_ID (by simp [reservedKeys]),
    tensor_subfield_map_none_of_reserved idx hwf FIELD_ID (by simp [reservedKeys])]
  simp

theorem parseWireField_count (idx : StructuredMarqoIndex) (hwf : WFIndex idx) (md : Dict)
    (v : Value) : parseWireField idx md FIELD_VECTOR_COUNT v = .ok md := by
  rw [parseWireField]
  simp only [all_field_map_none_of_reserved idx hwf FIELD_VECTOR_COUNT
      (by simp [reservedKeys]),
    tensor_subfield_map_none_of_reserved idx hwf FIELD_VECTOR_COUNT
      (by simp [reservedKeys])]
  rw [if_neg (by decide), if_neg (by decide), if_pos (by decide)]

theorem parseWireField_score_mods (idx : StructuredMarqoIndex) (hwf : WFIndex idx)
    (md : Dict) (v : Value) : parseWireField idx md FIELD_SCORE_MODIFIERS v = .ok md := by
  rw [parseWireField]
  simp only [all_field_map_none_of_reserved idx hwf FIELD_SCORE_MODIFIERS
      (by simp [reservedKeys]),
    tensor_subfield_map_none_of_reserved idx hwf FIELD_SCORE_MODIFIERS
      (by simp [reservedKeys])]
  rw [if_neg (by decide), if_neg (by decide), if_pos (by decide)]

theorem parseWireField_flat_fresh (idx : StructuredMarqoIndex) (hwf : WFIndex idx)
    (md : Dict) (fld : MarqoField) (hmem : fld ∈ idx.fields) (k : String)
    (hk : k ∈ fieldKeys fld) (v v' : Value)
    (hdec : decodeWireValue fld v = .ok v')
    (hno : dlookup md fld.name = none) :
    parseWireField idx md k v = .ok (dinsert md fld.name v') := by
  rw [parseWireField]
  simp only [all_field_map_eq_of_mem idx hwf fld k hmem hk, hdec, exBindOk, hno]

theorem parseWireField_flat_dup (idx : StructuredMarqoIndex) (hwf : WFIndex idx)
    (md : Dict) (fld : MarqoField) (hmem : fld ∈ idx.fields) (k : String)
    (hk : k ∈ fieldKeys fld) (v v' : Value)
    (hdec : decodeWireValue fld v = .ok v')
    (hsome : dlookup md fld.name = some v') :
    parseWireField idx md k v = .ok md := by
  rw [parseWireField]
  simp only [all_field_map_eq_of_mem idx hwf fld k hmem hk, hdec, exBindOk, hsome]
  simp

theorem parseWireField_chunk (idx : StructuredMarqoIndex) (hwf : WFIndex idx) (md : Dict)
    (tf : TensorField) (hmem : tf ∈ idx.tensor_fields) (v : Value) :
    parseWireField idx md tf.chunk_field_name v =
      .ok (setTensorSub md tf.name MARQO_DOC_CHUNKS v) := by
  rw [parseWireField]
  simp only [all_field_map_none_of_sub idx hwf tf hmem tf.chunk_field_name
      (by simp [subKeys]),
    tensor_subfield_map_eq_of_mem idx hwf tf tf.chunk_field_name hmem (by simp [subKeys])]
  simp

theorem indexedEmbeddings_values (es : List Value) :
    (indexedEmbeddings es).map (fun p => p.2) = es := by
  rw [indexedEmbeddings, List.map_map]
  rw [show ((fun p : String × Value => p.2) ∘
      (fun p : Nat × Value => (toString p.1, p.2))) = Prod.snd from rfl]
  exact List.enum_map_snd es

theorem decodeEmbeddings_blocks (es : List Value) :
    decodeEmbeddings (.vobj [("blocks", .vobj (indexedEmbeddings es))]) = some es := by
  simp [decodeEmbeddings, dlookup_cons, indexedEmbeddings_values]

theorem parseWireField_emb (idx : StructuredMarqoIndex) (hwf : WFIndex idx) (md : Dict)
    (tf : TensorField) (hmem : tf ∈ idx.tensor_fields) (v : Value) (l : List Value)
    (hdec : decodeEmbeddings v = some l) :
    parseWireField idx md tf.embeddings_field_name v =
      .ok (setTensorSub md tf.name MARQO_DOC_EMBEDDINGS (.varr l)) := by
  have hne : tf.chunk_field_name ≠ tf.embeddings_field_name := by
    simpa [subKeys] using wf_subKeys_nodup idx hwf tf hmem
  rw [parseWireField]
  simp only [all_field_map_none_of_sub idx hwf tf hmem tf.embeddings_field_name
      (by simp [subKeys]),
    tensor_subfield_map_eq_of_mem idx hwf tf tf.embeddings_field_name hmem
      (by simp [subKeys])]
  rw [if_neg (Ne.symm hne)]
  simp [hdec]

/-! ### Decoding whole encode segments -/

/-- The tensor section of the decoded document for one tensor payload. -/
def tensorSub (tc : TensorContent) : Dict :=
  [(MARQO_DOC_CHUNKS, .varr (tc.chunks.map .vstr)),
   (MARQO_DOC_EMBEDDINGS, .varr tc.embeddings)]

/-- The decoded tensor section for a tensor list. -/
def tensorsDict (ts : List (String × TensorContent)) : Dict :=
  ts.map (fun q => (q.1, .vobj (tensorSub q.2)))

/-- The tensor-section entry of the decoded document, absent when empty. -/
def wrapT : Dict → Dict
  | [] => []
  | tens => [(MARQO_DOC_TENSORS, .vobj tens)]

theorem wrapT_ne (tens : Dict) (h : tens ≠ []) :
    wrapT tens = [(MARQO_DOC_TENSORS, .vobj tens)] := by
  cases tens with
  | nil => exact absurd rfl h
  | cons p r => rfl

/-- Decoding the wire entries of a flat-field batch reproduces the
original fields verbatim. -/
theorem parseFlatSeg (idx : StructuredMarqoIndex) (hwf : WFIndex idx) :
    ∀ (fs : List (String × Value)) (md : Dict),
      (∀ p ∈ fs, ∃ fld, field_map idx p.1 = some fld ∧
        verify_marqo_field_type fld.type p.2 = true) →
      (dictKeys md ++ fs.map Prod.fst).Nodup →
      parseWireFields idx (fs.flatMap (wireEntries idx)) md = .ok (md ++ fs) := by
  intro fs
  induction fs with
  | nil =>
    intro md _ _
    simp [parseWireFields]
  | cons p rest ih =>
    intro md hres hnd
    rcases hres p (by simp) with ⟨fld, hfld, hv⟩
    rcases field_map_name idx p.1 fld hfld with ⟨hname, hmemf⟩
    have hwe : wireEntries idx p = entriesOfField fld (convVal fld p.2) := by
      rw [wireEntries, hfld]
    have hdecv : decodeWireValue fld (convVal fld p.2) = .ok p.2 :=
      decodeWireValue_convVal fld p.2 hv
    have hfreshmd : dcontains md p.1 = false := by
      rw [dcontains_false_iff]
      intro hkm
      exact (List.disjoint_of_nodup_append hnd) hkm (by simp)
    have hnmd : dlookup md fld.name = none := by
      apply dlookup_none_of_dcontains_false
      rw [hname]
      exact hfreshmd
    have hins : dinsert md fld.name p.2 = md ++ [p] := by
      rw [hname, dinsert_fresh md p.1 p.2 hfreshmd]
    have hlook2 : dlookup (md ++ [p]) fld.name = some p.2 := by
      rw [hname]
      exact dlookup_last md p.1 p.2 hfreshmd
    have hih : parseWireFields idx (rest.flatMap (wireEntries idx)) (md ++ [p]) =
        .ok ((md ++ [p]) ++ rest) := by
      apply ih (md ++ [p]) (fun q hq => hres q (by simp [hq]))
      rw [dictKeys_append, show dictKeys [p] = [p.1] from rfl, List.append_assoc]
      exact hnd
    rw [List.flatMap_cons, hwe]
    rcases hl : fld.lexical_field_name with _ | ln <;>
      rcases hf : fld.filter_field_name with _ | fn
    · have he : entriesOfField fld (convVal fld p.2) = [(fld.name, convVal fld p.2)] := by
        simp [entriesOfField, hl, hf]
      rw [he]
      simp only [List.cons_append, List.nil_append]
      rw [parseWireFields]
      rw [parseWireField_flat_fresh idx hwf md fld hmemf fld.name (by simp [fieldKeys])
        (convVal fld p.2) p.2 hdecv hnmd]
      simp only [exBindOk]
      rw [hins, hih]
      simp
    · have he : entriesOfField fld (convVal fld p.2) = [(fn, convVal fld p.2)] := by
        simp [entriesOfField, hl, hf]
      rw [he]
      simp only [List.cons_append, List.nil_append]
      rw [parseWireFields]
      rw [parseWireField_flat_fresh idx hwf md fld hmemf fn (by simp [fieldKeys, hf])
        (convVal fld p.2) p.2 hdecv hnmd]
      simp only [exBindOk]
      rw [hins, hih]
      simp
    · have he : entriesOfField fld (convVal fld p.2) = [(ln, convVal fld p.2)] := by
        simp [entriesOfField, hl, hf]
      rw [he]
      simp only [List.cons_append, List.nil_append]
      rw [parseWireFields]
      rw [parseWireField_flat_fresh idx hwf md fld hmemf ln (by simp [fieldKeys, hl])
        (convVal fld p.2) p.2 hdecv hnmd]
      simp only [exBindOk]
      rw [hins, hih]
      simp
    · have he : entriesOfField fld (convVal fld p.2) =
          [(ln, convVal fld p.2), (fn, convVal fld p.2)] := by
        simp [entriesOfField, hl, hf]
      rw [he]
      simp only [List.cons_append, List.nil_append]
      rw [parseWireFields]
      rw [parseWireField_flat_fresh idx hwf md fld hmemf ln (by simp [fieldKeys, hl])
        (convVal fld p.2) p.2 hdecv hnmd]
      simp only [exBindOk]
      rw [hins]
      rw [parseWireFields]
      rw [parseWireField_flat_dup idx hwf (md ++ [p]) fld hmemf fn
        (by simp [fieldKeys, hf]) (convVal fld p.2) p.2 hdecv hlook2]
      simp only [exBindOk]
      rw [hih]
      simp

/-- Decoding the backend-wrapped wire entries of a tensor batch builds the
nested tensor section. -/
theorem parseTensorSeg (idx : StructuredMarqoIndex) (hwf : WFIndex idx) :
    ∀ (ts : List (String × TensorContent)) (md0 tens : Dict),
      dcontains md0 MARQO_DOC_TENSORS = false →
      (∀ q ∈ ts, ∃ tf, tensor_field_map idx q.1 = some tf) →
      (dictKeys tens ++ ts.map Prod.fst).Nodup →
      parseWireFields idx
          (ts.flatMap (fun q => (tensorEntries idx q).map (wrapEntry idx)))
          (md0 ++ wrapT tens) =
        .ok (md0 ++ wrapT (tens ++ tensorsDict ts)) := by
  intro ts
  induction ts with
  | nil =>
    intro md0 tens _ _ _
    simp [parseWireFields, tensorsDict]
  | cons q rest ih =>
    intro md0 tens h0 hres hnd
    rcases hres q (by simp) with ⟨tf, htf⟩
    rcases tensor_field_map_name idx q.1 tf htf with ⟨hname, hmemt⟩
    have hte : tensorEntries idx q =
        [(tf.chunk_field_name, .varr (q.2.chunks.map .vstr)),
         (tf.embeddings_field_name, .vobj (indexedEmbeddings q.2.embeddings))] := by
      simp only [tensorEntries, htf]
    have hchunk_nw : wrapEntry idx
        (tf.chunk_field_name, Value.varr (q.2.chunks.map Value.vstr)) =
        (tf.chunk_field_name, Value.varr (q.2.chunks.map Value.vstr)) := by
      apply wrapEntry_eq_self
      intro tf' htf' he
      by_cases hsame : tf' = tf
      · subst hsame
        have hnd2 := wf_subKeys_nodup idx hwf tf' htf'
        simp [subKeys] at hnd2
        exact hnd2 he.symm
      · exact wf_subKeys_disjoint idx hwf tf' htf' tf hmemt hsame
          ((mem_subKeys_iff tf' _).mpr (Or.inr he))
          ((mem_subKeys_iff tf _).mpr (Or.inl rfl))
    have hemb_w : wrapEntry idx (tf.embeddings_field_name,
        Value.vobj (indexedEmbeddings q.2.embeddings)) =
        (tf.embeddings_field_name, Value.vobj [("blocks",
          Value.vobj (indexedEmbeddings q.2.embeddings))]) :=
      wrapEntry_emb idx _ tf hmemt rfl
    have htfresh : dcontains tens q.1 = false := by
      rw [dcontains_false_iff]
      intro hk
      exact (List.disjoint_of_nodup_append hnd) hk (by simp)
    have htfresh' : dcontains tens tf.name = false := by
      rw [hname]
      exact htfresh
    have hstep1 : setTensorSub (md0 ++ wrapT tens) tf.name MARQO_DOC_CHUNKS
        (Value.varr (q.2.chunks.map Value.vstr)) =
        md0 ++ [(MARQO_DOC_TENSORS, Value.vobj (tens ++ [(tf.name,
          Value.vobj [(MARQO_DOC_CHUNKS, Value.varr (q.2.chunks.map Value.vstr))])]))] := by
      cases tens with
      | nil =>
        rw [show wrapT [] = [] from rfl, List.append_nil, List.nil_append]
        exact setTensorSub_fresh md0 tf.name MARQO_DOC_CHUNKS _ h0
      | cons t ts' =>
        rw [wrapT_ne _ (by simp)]
        exact setTensorSub_push md0 (t :: ts') tf.name MARQO_DOC_CHUNKS _ h0 htfresh'
    have hsub2 : dinsert [(MARQO_DOC_CHUNKS, Value.varr (q.2.chunks.map Value.vstr))]
        MARQO_DOC_EMBEDDINGS (Value.varr q.2.embeddings) = tensorSub q.2 := by
      rw [dinsert_fresh _ _ _ (by
        simp [dcontains, List.find?,
          decide_eq_false (show MARQO_DOC_CHUNKS ≠ MARQO_DOC_EMBEDDINGS by decide)])]
      rfl
    have hnd' : (dictKeys (tens ++ [(tf.name, Value.vobj (tensorSub q.2))]) ++
        rest.map Prod.fst).Nodup := by
      rw [dictKeys_append,
        show dictKeys [(tf.name, Value.vobj (tensorSub q.2))] = [q.1] from by
          simp [dictKeys, hname],
        List.append_assoc]
      exact hnd
    have hih := ih md0 (tens ++ [(tf.name, Value.vobj (tensorSub q.2))]) h0
      (fun q' hq' => hres q' (by simp [hq'])) hnd'
    simp only [List.flatMap_cons]
    rw [hte]
    simp only [List.map_cons, List.map_nil]
    rw [hchunk_nw, hemb_w]
    simp only [List.cons_append, List.nil_append]
    rw [parseWireFields]
    rw [parseWireField_chunk idx hwf (md0 ++ wrapT tens) tf hmemt _]
    simp only [exBindOk]
    rw [hstep1]
    rw [parseWireFields]
    rw [parseWireField_emb idx hwf _ tf hmemt _ q.2.embeddings
      (decodeEmbeddings_blocks q.2.embeddings)]
    simp only [exBindOk]
    rw [setTensorSub_update md0 tens _ tf.name MARQO_DOC_EMBEDDINGS _ h0 htfresh']
    rw [hsub2]
    rw [wrapT_ne _ (by simp)] at hih
    rw [hih, hname]
    simp [tensorsDict, List.append_assoc]

/-! ### The wire keys an encoded document carries -/

theorem wireKeys_mem (idx : StructuredMarqoIndex) (p : String × Value) (k : String)
    (hk : k ∈ (wireEntries idx p).map Prod.fst) :
    ∃ fld, field_map idx p.1 = some fld ∧ fld ∈ idx.fields ∧ fld.name = p.1 ∧
      k ∈ fieldKeys fld := by
  rcases hfld : field_map idx p.1 with _ | fld
  · simp only [wireEntries, hfld] at hk
    simp at hk
  · simp only [wireEntries, hfld] at hk
    rw [entriesOfField_keys] at hk
    rcases field_map_name idx p.1 fld hfld with ⟨hn, hm⟩
    exact ⟨fld, rfl, hm, hn, storageKeys_sub_fieldKeys fld hk⟩

theorem smKeys_mem (idx : StructuredMarqoIndex) (p : String × Value) (k : String)
    (hk : k ∈ (smEntries idx p).map Prod.fst) : k = p.1 := by
  rcases hfld : field_map idx p.1 with _ | fld
  · simp only [smEntries, hfld] at hk
    simp at hk
  · simp only [smEntries, hfld] at hk
    rcases field_map_name idx p.1 fld hfld with ⟨hn, _⟩
    by_cases hfeat : fld.features.contains FieldFeature.ScoreModifier = true
    · rw [if_pos hfeat] at hk
      simp at hk
      rw [hk]
      exact hn
    · rw [if_neg hfeat] at hk
      simp at hk

theorem tensorKeys_mem (idx : StructuredMarqoIndex) (q : String × TensorContent)
    (k : String) (hk : k ∈ (tensorEntries idx q).map Prod.fst) :
    ∃ tf, tensor_field_map idx q.1 = some tf ∧ tf ∈ idx.tensor_fields ∧ tf.name = q.1 ∧
      k ∈ subKeys tf := by
  rcases htf : tensor_field_map idx q.1 with _ | tf
  · simp only [tensorEntries, htf] at hk
    simp at hk
  · rw [tensorEntries_keys idx q tf htf] at hk
    rcases tensor_field_map_name idx q.1 tf htf with ⟨hn, hm⟩
    exact ⟨tf, rfl, hm, hn, hk⟩

theorem wireKeys_nodup_each (idx : StructuredMarqoIndex) (hwf : WFIndex idx)
    (p : String × Value) : ((wireEntries idx p).map Prod.fst).Nodup := by
  rcases hfld : field_map idx p.1 with _ | fld
  · simp [wireEntries, hfld]
  · simp only [wireEntries, hfld]
    rw [entriesOfField_keys]
    exact storageKeys_nodup fld (wf_fieldKeys_nodup idx hwf fld
      (field_map_name idx p.1 fld hfld).2)

theorem encodeFlatKeys_nodup (idx : StructuredMarqoIndex) (hwf : WFIndex idx)
    (fs : List (String × Value)) (hnd : (fs.map Prod.fst).Nodup) :
    (fs.flatMap (fun p => (wireEntries idx p).map Prod.fst)).Nodup := by
  rw [List.nodup_flatMap]
  constructor
  · intro p _
    exact wireKeys_nodup_each idx hwf p
  · have hp : fs.Pairwise (fun a b => a.1 ≠ b.1) := List.pairwise_map.mp hnd
    apply hp.imp_of_mem
    intro a b ha hb hne k hka hkb
    rcases wireKeys_mem idx a k hka with ⟨f1, _, hm1, hn1, hk1⟩
    rcases wireKeys_mem idx b k hkb with ⟨f2, _, hm2, hn2, hk2⟩
    have hf12 : f1 ≠ f2 := by
      intro he
      exact hne (by rw [← hn1, he, hn2])
    exact wf_fieldKeys_disjoint idx hwf f1 hm1 f2 hm2 hf12 hk1 hk2

theorem encodeSmKeys_nodup (idx : StructuredMarqoIndex)
    (fs : List (String × Value)) (hnd : (fs.map Prod.fst).Nodup) :
    (fs.flatMap (fun p => (smEntries idx p).map Prod.fst)).Nodup := by
  rw [List.nodup_flatMap]
  constructor
  · intro p _
    rcases hfld : field_map idx p.1 with _ | fld
    · simp [smEntries, hfld]
    · simp only [smEntries, hfld]
      by_cases hfeat : fld.features.contains FieldFeature.ScoreModifier = true
      · rw [if_pos hfeat]; simp
      · rw [if_neg hfeat]; simp
  · have hp : fs.Pairwise (fun a b => a.1 ≠ b.1) := List.pairwise_map.mp hnd
    apply hp.imp_of_mem
    intro a b _ _ hne k hka hkb
    exact hne ((smKeys_mem idx a k hka).symm.trans (smKeys_mem idx b k hkb))

theorem encodeTensorKeys_nodup (idx : StructuredMarqoIndex) (hwf : WFIndex idx)
    (ts : List (String × TensorContent)) (hnd : (ts.map Prod.fst).Nodup) :
    (ts.flatMap (fun q => (tensorEntries idx q).map Prod.fst)).Nodup := by
  rw [List.nodup_flatMap]
  constructor
  · intro q _
    rcases htf : tensor_field_map idx q.1 with _ | tf
    · simp [tensorEntries, htf]
    · rw [tensorEntries_keys idx q tf htf]
      exact wf_subKeys_nodup idx hwf tf (tensor_field_map_name idx q.1 tf htf).2
  · have hp : ts.Pairwise (fun a b => a.1 ≠ b.1) := List.pairwise_map.mp hnd
    apply hp.imp_of_mem
    intro a b ha hb hne k hka hkb
    rcases tensorKeys_mem idx a k hka with ⟨t1, _, hm1, hn1, hk1⟩
    rcases tensorKeys_mem idx b k hkb with ⟨t2, _, hm2, hn2, hk2⟩
    have ht12 : t1 ≠ t2 := by
      intro he
      exact hne (by rw [← hn1, he, hn2])
    exact wf_subKeys_disjoint idx hwf t1 hm1 t2 hm2 ht12 hk1 hk2

theorem flat_tensor_keys_disjoint (idx : StructuredMarqoIndex) (hwf : WFIndex idx)
    (fs : List (String × Value)) (ts : List (String × TensorContent)) :
    (fs.flatMap (fun p => (wireEntries idx p).map Prod.fst)).Disjoint
      (ts.flatMap (fun q => (tensorEntries idx q).map Prod.fst)) := by
  intro k hk1 hk2
  rcases List.mem_flatMap.mp hk1 with ⟨p, _, hkp⟩
  rcases List.mem_flatMap.mp hk2 with ⟨q, _, hkq⟩
  rcases wireKeys_mem idx p k hkp with ⟨f1, _, hm1, _, hk1'⟩
  rcases tensorKeys_mem idx q k hkq with ⟨t2, _, hm2, _, hk2'⟩
  exact wf_field_sub_disjoint idx hwf (List.mem_flatMap.mpr ⟨f1, hm1, hk1'⟩)
    (List.mem_flatMap.mpr ⟨t2, hm2, hk2'⟩)

theorem reserved_not_in_flat (idx : StructuredMarqoIndex) (hwf : WFIndex idx)
    (fs : List (String × Value)) (k : String) (hk : k ∈ reservedKeys) :
    k ∉ fs.flatMap (fun p => (wireEntries idx p).map Prod.fst) := by
  intro hmem
  rcases List.mem_flatMap.mp hmem with ⟨p, _, hkp⟩
  rcases wireKeys_mem idx p k hkp with ⟨f1, _, hm1, _, hk1'⟩
  exact wf_reserved_disjoint idx hwf
    (List.mem_append_left _ (List.mem_flatMap.mpr ⟨f1, hm1, hk1'⟩)) hk

theorem reserved_not_in_tensor (idx : StructuredMarqoIndex) (hwf : WFIndex idx)
    (ts : List (String × TensorContent)) (k : String) (hk : k ∈ reservedKeys) :
    k ∉ ts.flatMap (fun q => (tensorEntries idx q).map Prod.fst) := by
  intro hmem
  rcases List.mem_flatMap.mp hmem with ⟨q, _, hkq⟩
  rcases tensorKeys_mem idx q k hkq with ⟨t1, _, hm1, _, hk1'⟩
  exact wf_reserved_disjoint idx hwf
    (List.mem_append_right _ (List.mem_flatMap.mpr ⟨t1, hm1, hk1'⟩)) hk

theorem map_fst_flatMap {α : Type} (l : List α) (f : α → Dict) :
    dictKeys (l.flatMap f) = l.flatMap (fun a => (f a).map Prod.fst) := by
  induction l with
  | nil => rfl
  | cons a rest ih =>
    simp only [List.flatMap_cons, dictKeys, List.map_append] at ih ⊢
    rw [ih]

/-- The id entry the encoder seeds the wire fields with. -/
def idEntry (doc : MarqoDoc) : Dict :=
  match doc.id? with
  | some i => [(FIELD_ID, i)]
  | none => []

theorem idEntry_keys_sub (doc : MarqoDoc) (k : String)
    (hk : k ∈ dictKeys (idEntry doc)) : k = FIELD_ID := by
  rcases hid : doc.id? with _ | i
  · simp [idEntry, hid, dictKeys] at hk
  · simp [idEntry, hid, dictKeys] at hk
    exact hk

/-- Full characterization of a successful encode: the wire fields are the
id entry, the flat-field storage entries, the tensor sub-field entries,
the vector count and the optional score-modifier blob, in this order. -/
theorem to_vespa_document_decomp (idx : StructuredMarqoIndex) (doc : MarqoDoc)
    (wd : VespaDoc) (hwf : WFIndex idx)
    (hndf : (doc.fields.map Prod.fst).Nodup)
    (hndt : ((doc.tensors?.getD []).map Prod.fst).Nodup)
    (henc : to_vespa_document idx doc = .ok wd) :
    wd.id? = doc.id? ∧
    (∀ p ∈ doc.fields, ∃ fld, field_map idx p.1 = some fld ∧
      verify_marqo_field_type fld.type p.2 = true) ∧
    (∀ q ∈ doc.tensors?.getD [], ∃ tf, tensor_field_map idx q.1 = some tf) ∧
    ∃ (cnt : Int) (sm : Dict),
      wd.fields? = some (idEntry doc ++ doc.fields.flatMap (wireEntries idx) ++
        (doc.tensors?.getD []).flatMap (tensorEntries idx) ++
        [(FIELD_VECTOR_COUNT, .vint cnt)] ++
        (if sm.length > 0 then [(FIELD_SCORE_MODIFIERS, .vobj sm)] else [])) := by
  have hvf0 : (match doc.id? with
      | some i => dinsert [] FIELD_ID i
      | none => []) = idEntry doc := by
    rcases hid : doc.id? with _ | i <;> simp [idEntry, hid, dinsert_nil]
  simp only [to_vespa_document, hvf0] at henc
  rcases h1 : marshalFlatLoop idx doc.fields (idEntry doc) [] with e | ⟨vf1, sm⟩
  · rw [h1] at henc
    exact absurd henc (by simp)
  · rw [h1] at henc
    simp only [exBindOk] at henc
    rcases h2 : marshalTensorLoop idx (doc.tensors?.getD []) vf1 0 with e | ⟨vf2, cnt⟩
    · rw [h2] at henc
      exact absurd henc (by simp)
    · rw [h2] at henc
      simp only [exBindOk] at henc
      have hresf := marshalFlatLoop_facts idx doc.fields _ _ _ h1
      have hrest := marshalTensorLoop_facts idx _ _ _ _ h2
      have hfk := encodeFlatKeys_nodup idx hwf doc.fields hndf
      have htk := encodeTensorKeys_nodup idx hwf (doc.tensors?.getD []) hndt
      have hnd1 : (dictKeys (idEntry doc) ++
          doc.fields.flatMap (fun p => (wireEntries idx p).map Prod.fst)).Nodup := by
        rw [List.nodup_append]
        refine ⟨?_, hfk, ?_⟩
        · rcases hid : doc.id? with _ | i <;> simp [idEntry, hid, dictKeys]
        · intro k hk1 hk2
          rw [idEntry_keys_sub doc k hk1] at hk2
          exact reserved_not_in_flat idx hwf doc.fields FIELD_ID
            (by simp [reservedKeys]) hk2
      have hv1 : vf1 = idEntry doc ++ doc.fields.flatMap (wireEntries idx) := by
        rcases marshalFlatLoop_decomp idx doc.fields (idEntry doc) [] vf1 sm h1 hnd1
          (encodeSmKeys_nodup idx doc.fields hndf) with ⟨ha, _⟩
        exact ha
      have hnd_master : ((dictKeys (idEntry doc) ++
          doc.fields.flatMap (fun p => (wireEntries idx p).map Prod.fst)) ++
          (doc.tensors?.getD []).flatMap
            (fun q => (tensorEntries idx q).map Prod.fst)).Nodup := by
        rw [List.nodup_append]
        refine ⟨hnd1, htk, ?_⟩
        intro k hk1 hk2
        rcases List.mem_append.mp hk1 with hk1' | hk1'
        · rw [idEntry_keys_sub doc k hk1'] at hk2
          exact reserved_not_in_tensor idx hwf _ FIELD_ID (by simp [reservedKeys]) hk2
        · exact flat_tensor_keys_disjoint idx hwf doc.fields _ hk1' hk2
      have hnd2 : (dictKeys vf1 ++ (doc.tensors?.getD []).flatMap
          (fun q => (tensorEntries idx q).map Prod.fst)).Nodup := by
        rw [hv1, dictKeys_append, map_fst_flatMap]
        exact hnd_master
      have hv2 : vf2 = vf1 ++ (doc.tensors?.getD []).flatMap (tensorEntries idx) :=
        marshalTensorLoop_decomp idx _ vf1 0 vf2 cnt h2 hnd2
      have hcount_fresh : dcontains vf2 FIELD_VECTOR_COUNT = false := by
        rw [dcontains_false_iff, hv2, hv1]
        intro hk
        rw [dictKeys_append, dictKeys_append, map_fst_flatMap, map_fst_flatMap] at hk
        rcases List.mem_append.mp hk with hk' | hk'
        · rcases List.mem_append.mp hk' with hk'' | hk''
          · exact absurd (idEntry_keys_sub doc _ hk'') (by decide)
          · exact reserved_not_in_flat idx hwf doc.fields FIELD_VECTOR_COUNT
              (by simp [reservedKeys]) hk''
        · exact reserved_not_in_tensor idx hwf _ FIELD_VECTOR_COUNT
            (by simp [reservedKeys]) hk'
      have hsm_fresh : dcontains (vf2 ++ [(FIELD_VECTOR_COUNT, Value.vint cnt)])
          FIELD_SCORE_MODIFIERS = false := by
        rw [dcontains_append]
        have h1' : dcontains vf2 FIELD_SCORE_MODIFIERS = false := by
          rw [dcontains_false_iff, hv2, hv1]
          intro hk
          rw [dictKeys_append, dictKeys_append, map_fst_flatMap, map_fst_flatMap] at hk
          rcases List.mem_append.mp hk with hk' | hk'
          · rcases List.mem_append.mp hk' with hk'' | hk''
            · exact absurd (idEntry_keys_sub doc _ hk'') (by decide)
            · exact reserved_not_in_flat idx hwf doc.fields FIELD_SCORE_MODIFIERS
                (by simp [reservedKeys]) hk''
          · exact reserved_not_in_tensor idx hwf _ FIELD_SCORE_MODIFIERS
              (by simp [reservedKeys]) hk'
        rw [h1']
        simp [dcontains, List.find?,
          decide_eq_false (show FIELD_VECTOR_COUNT ≠ FIELD_SCORE_MODIFIERS by decide)]
      rw [dinsert_fresh vf2 FIELD_VECTOR_COUNT _ hcount_fresh] at henc
      injection henc with hw
      subst hw
      refine ⟨rfl, hresf, hrest, cnt, sm, ?_⟩
      by_cases hsm : sm.length > 0
      · simp only [if_pos hsm]
        rw [dinsert_fresh _ FIELD_SCORE_MODIFIERS _ hsm_fresh, hv2, hv1]
      · simp only [if_neg hsm]
        rw [List.append_nil, hv2, hv1]

/-! ### Assembling the round trip -/

/-- The id entry of the decoded domain document. -/
def idDomEntry (doc : MarqoDoc) : Dict :=
  match doc.id? with
  | some i => [(MARQO_DOC_ID, i)]
  | none => []

theorem idDomEntry_keys (doc : MarqoDoc) (k : String)
    (hk : k ∈ dictKeys (idDomEntry doc)) : k = MARQO_DOC_ID := by
  rcases hid : doc.id? with _ | i
  · simp [idDomEntry, hid, dictKeys] at hk
  · simp [idDomEntry, hid, dictKeys] at hk
    exact hk

theorem idDomEntry_not_contains (doc : MarqoDoc) (k : String) (hk : k ≠ MARQO_DOC_ID) :
    dcontains (idDomEntry doc) k = false := by
  rw [dcontains_false_iff]
  intro hmem
  exact hk (idDomEntry_keys doc k hmem)

theorem parse_idEntry (idx : StructuredMarqoIndex) (hwf : WFIndex idx) (doc : MarqoDoc) :
    parseWireFields idx (idEntry doc) [] = .ok (idDomEntry doc) := by
  rcases hid : doc.id? with _ | i
  · simp [idEntry, idDomEntry, hid, parseWireFields]
  · simp only [idEntry, idDomEntry, hid]
    rw [parseWireFields, parseWireField_id idx hwf [] i]
    simp [parseWireFields, dinsert_nil]

theorem map_flatMap_entries {α β γ : Type} (l : List α) (f : α → List β) (g : β → γ) :
    (l.flatMap f).map g = l.flatMap (fun a => (f a).map g) := by
  induction l with
  | nil => rfl
  | cons a rest ih =>
    simp only [List.flatMap_cons, List.map_append, ih]

theorem wrapEntry_eq_self_of_reserved (idx : StructuredMarqoIndex) (hwf : WFIndex idx)
    (p : String × Value) (hk : p.1 ∈ reservedKeys) : wrapEntry idx p = p := by
  apply wrapEntry_eq_self
  intro tf htf he
  exact wf_reserved_disjoint idx hwf
    (List.mem_append_right _ (List.mem_flatMap.mpr
      ⟨tf, htf, (mem_subKeys_iff tf _).mpr (Or.inr he)⟩)) hk

theorem wrap_flat_id (idx : StructuredMarqoIndex) (hwf : WFIndex idx)
    (fs : List (String × Value)) :
    (fs.flatMap (wireEntries idx)).map (wrapEntry idx) =
      fs.flatMap (wireEntries idx) := by
  apply map_wrapEntry_id
  intro p hp
  rcases List.mem_flatMap.mp hp with ⟨q, hq, hpq⟩
  have hk : p.1 ∈ (wireEntries idx q).map Prod.fst := List.mem_map.mpr ⟨p, hpq, rfl⟩
  rcases wireKeys_mem idx q p.1 hk with ⟨fld, _, hm, _, hkf⟩
  apply wrapEntry_eq_self
  intro tf htf he
  exact wf_field_sub_disjoint idx hwf (List.mem_flatMap.mpr ⟨fld, hm, hkf⟩)
    (List.mem_flatMap.mpr ⟨tf, htf, (mem_subKeys_iff tf _).mpr (Or.inr he)⟩)

theorem wrap_id_id (idx : StructuredMarqoIndex) (hwf : WFIndex idx) (doc : MarqoDoc) :
    (idEntry doc).map (wrapEntry idx) = idEntry doc := by
  apply map_wrapEntry_id
  intro p hp
  apply wrapEntry_eq_self_of_reserved idx hwf
  rw [idEntry_keys_sub doc p.1 (List.mem_map.mpr ⟨p, hp, rfl⟩)]
  simp [reservedKeys]

theorem dlookup_of_mem_nodup (d : Dict) (p : String × Value) (hp : p ∈ d)
    (hnd : (d.map Prod.fst).Nodup) : dlookup d p.1 = some p.2 := by
  have hpw : d.Pairwise (fun a b => a.1 ≠ b.1) := List.pairwise_map.mp hnd
  have hfind : d.find? (fun q => q.1 = p.1) = some p := by
    apply find?_eq_some_of_unique
    · exact hp
    · simp
    · intro b hb hpb
      simp only [decide_eq_true_eq] at hpb
      by_contra hne
      exact (hpw.forall (fun a b hab => Ne.symm hab) hb hp hne) hpb
  rw [dlookup, hfind]
  rfl

theorem tensorsDict_keys (ts : List (String × TensorContent)) :
    (tensorsDict ts).map Prod.fst = ts.map Prod.fst := by
  induction ts with
  | nil => rfl
  | cons q rest ih =>
    simp only [tensorsDict, List.map_cons] at ih ⊢
    rw [ih]

/-- C1: for every domain document a well-formed index accepts (Python-dict
key uniqueness assumed on the flat fields and the tensor section),
decoding the encoded wire document through the backend's `blocks`
presentation succeeds and reproduces every original flat field value and,
for every tensor field, the original chunk list and embedding list in
order. -/
theorem round_trip_via_blocks (idx : StructuredMarqoIndex) (doc : MarqoDoc)
    (wd : VespaDoc) (hwf : WFIndex idx)
    (hndf : (doc.fields.map Prod.fst).Nodup)
    (hndt : ((doc.tensors?.getD []).map Prod.fst).Nodup)
    (henc : to_vespa_document idx doc = .ok wd) :
    ∃ md, to_marqo_document idx (wrapBlocks idx wd) false = .ok md ∧
      (∀ p ∈ doc.fields, dlookup md p.1 = some p.2) ∧
      (∀ q ∈ doc.tensors?.getD [],
        ∃ tens sub, dlookup md MARQO_DOC_TENSORS = some (.vobj tens) ∧
          dlookup tens q.1 = some (.vobj sub) ∧
          dlookup sub MARQO_DOC_CHUNKS = some (.varr (q.2.chunks.map .vstr)) ∧
          dlookup sub MARQO_DOC_EMBEDDINGS = some (.varr q.2.embeddings)) := by
  rcases to_vespa_document_decomp idx doc wd hwf hndf hndt henc with
    ⟨hid, hresf, hrest, cnt, sm, hfields⟩
  have hfnames : ∀ p ∈ doc.fields, p.1 ≠ MARQO_DOC_ID ∧ p.1 ≠ MARQO_DOC_TENSORS := by
    intro p hp
    rcases hresf p hp with ⟨fld, hfld, _⟩
    rcases field_map_name idx p.1 fld hfld with ⟨hn, hm⟩
    have hres := hwf.2 fld hm
    rw [hn] at hres
    exact hres
  have hD : ([(FIELD_VECTOR_COUNT, Value.vint cnt)] : Dict).map (wrapEntry idx) =
      [(FIELD_VECTOR_COUNT, Value.vint cnt)] := by
    simp only [List.map_cons, List.map_nil]
    rw [wrapEntry_eq_self_of_reserved idx hwf _ (by simp [reservedKeys])]
  have hEm : ((if sm.length > 0 then [(FIELD_SCORE_MODIFIERS, Value.vobj sm)]
      else []) : Dict).map (wrapEntry idx) =
      (if sm.length > 0 then [(FIELD_SCORE_MODIFIERS, Value.vobj sm)] else []) := by
    by_cases hsm : sm.length > 0
    · rw [if_pos hsm]
      simp only [List.map_cons, List.map_nil]
      rw [wrapEntry_eq_self_of_reserved idx hwf _ (by simp [reservedKeys])]
    · rw [if_neg hsm]
      rfl
  have hmap : (idEntry doc ++ doc.fields.flatMap (wireEntries idx) ++
      (doc.tensors?.getD []).flatMap (tensorEntries idx) ++
      [(FIELD_VECTOR_COUNT, Value.vint cnt)] ++
      (if sm.length > 0 then [(FIELD_SCORE_MODIFIERS, Value.vobj sm)] else [])).map
        (wrapEntry idx) =
      idEntry doc ++ doc.fields.flatMap (wireEntries idx) ++
      ((doc.tensors?.getD []).flatMap
        (fun q => (tensorEntries idx q).map (wrapEntry idx))) ++
      [(FIELD_VECTOR_COUNT, Value.vint cnt)] ++
      (if sm.length > 0 then [(FIELD_SCORE_MODIFIERS, Value.vobj sm)] else []) := by
    simp only [List.map_append, hD, hEm, wrap_id_id idx hwf doc,
      wrap_flat_id idx hwf doc.fields, map_flatMap_entries]
  have hfields0 : (wrapBlocks idx wd).fields? =
      wd.fields?.map (fun fs => fs.map (wrapEntry idx)) := by
    rw [wrapBlocks_eq]
  have hfields' : (wrapBlocks idx wd).fields? =
      some (idEntry doc ++ doc.fields.flatMap (wireEntries idx) ++
        ((doc.tensors?.getD []).flatMap
          (fun q => (tensorEntries idx q).map (wrapEntry idx))) ++
        [(FIELD_VECTOR_COUNT, Value.vint cnt)] ++
        (if sm.length > 0 then [(FIELD_SCORE_MODIFIERS, Value.vobj sm)] else [])) := by
    rw [hfields0, hfields, Option.map_some', hmap]
  have hA : parseWireFields idx (idEntry doc) [] = .ok (idDomEntry doc) :=
    parse_idEntry idx hwf doc
  have hndA : (dictKeys (idDomEntry doc) ++ doc.fields.map Prod.fst).Nodup := by
    rcases hid2 : doc.id? with _ | i
    · simpa [idDomEntry, hid2, dictKeys] using hndf
    · rw [show dictKeys (idDomEntry doc) = [MARQO_DOC_ID] from by
        simp [idDomEntry, hid2, dictKeys], List.singleton_append, List.nodup_cons]
      refine ⟨?_, hndf⟩
      intro hk
      rcases List.mem_map.mp hk with ⟨p, hp, hpk⟩
      exact (hfnames p hp).1 hpk
  have hB : parseWireFields idx (doc.fields.flatMap (wireEntries idx))
      (idDomEntry doc) = .ok (idDomEntry doc ++ doc.fields) :=
    parseFlatSeg idx hwf doc.fields (idDomEntry doc) hresf hndA
  have h0T : dcontains (idDomEntry doc ++ doc.fields) MARQO_DOC_TENSORS = false := by
    rw [dcontains_append, idDomEntry_not_contains doc MARQO_DOC_TENSORS (by decide)]
    have hBf : dcontains doc.fields MARQO_DOC_TENSORS = false := by
      rw [dcontains_false_iff]
      intro hk
      rcases List.mem_map.mp hk with ⟨p, hp, hpk⟩
      exact (hfnames p hp).2 hpk
    rw [hBf]
    rfl
  have hC : parseWireFields idx ((doc.tensors?.getD []).flatMap
      (fun q => (tensorEntries idx q).map (wrapEntry idx)))
      (idDomEntry doc ++ doc.fields) =
      .ok ((idDomEntry doc ++ doc.fields) ++
        wrapT (tensorsDict (doc.tensors?.getD []))) := by
    have hct := parseTensorSeg idx hwf (doc.tensors?.getD [])
      (idDomEntry doc ++ doc.fields) [] h0T hrest (by simpa [dictKeys] using hndt)
    simpa [show wrapT ([] : Dict) = [] from rfl, List.append_assoc] using hct
  have p2 : parseWireFields idx
      (idEntry doc ++ doc.fields.flatMap (wireEntries idx)) [] =
      .ok (idDomEntry doc ++ doc.fields) := by
    rw [parseWireFields_append idx _ _ [] _ hA]
    exact hB
  have p3 : parseWireFields idx
      (idEntry doc ++ doc.fields.flatMap (wireEntries idx) ++
        ((doc.tensors?.getD []).flatMap
          (fun q => (tensorEntries idx q).map (wrapEntry idx)))) [] =
      .ok ((idDomEntry doc ++ doc.fields) ++
        wrapT (tensorsDict (doc.tensors?.getD []))) := by
    rw [parseWireFields_append idx _ _ [] _ p2]
    exact hC
  have p4 : parseWireFields idx
      (idEntry doc ++ doc.fields.flatMap (wireEntries idx) ++
        ((doc.tensors?.getD []).flatMap
          (fun q => (tensorEntries idx q).map (wrapEntry idx))) ++
        [(FIELD_VECTOR_COUNT, Value.vint cnt)]) [] =
      .ok ((idDomEntry doc ++ doc.fields) ++
        wrapT (tensorsDict (doc.tensors?.getD []))) := by
    rw [parseWireFields_append idx _ _ [] _ p3]
    rw [parseWireFields, parseWireField_count idx hwf _ _]
    simp [parseWireFields]
  have p5 : parseWireFields idx
      (idEntry doc ++ doc.fields.flatMap (wireEntries idx) ++
        ((doc.tensors?.getD []).flatMap
          (fun q => (tensorEntries idx q).map (wrapEntry idx))) ++
        [(FIELD_VECTOR_COUNT, Value.vint cnt)] ++
        (if sm.length > 0 then [(FIELD_SCORE_MODIFIERS, Value.vobj sm)] else [])) [] =
      .ok ((idDomEntry doc ++ doc.fields) ++
        wrapT (tensorsDict (doc.tensors?.getD []))) := by
    rw [parseWireFields_append idx _ _ [] _ p4]
    by_cases hsm : sm.length > 0
    · rw [if_pos hsm]
      rw [parseWireFields, parseWireField_score_mods idx hwf _ _]
      simp [parseWireFields]
    · rw [if_neg hsm]
      rw [parseWireFields]
  refine ⟨(idDomEntry doc ++ doc.fields) ++
    wrapT (tensorsDict (doc.tensors?.getD [])), ?_, ?_, ?_⟩
  · simp only [to_marqo_document, hfields', p5, exBindOk, Bool.false_and]
    simp
    rfl
  · intro p hp
    have hlA : dlookup (idDomEntry doc) p.1 = none :=
      dlookup_none_of_dcontains_false _ _
        (idDomEntry_not_contains doc p.1 (hfnames p hp).1)
    have hlF : dlookup doc.fields p.1 = some p.2 :=
      dlookup_of_mem_nodup doc.fields p hp hndf
    simp only [dlookup_append, hlA, hlF]
  · intro q hq
    have hts_ne : tensorsDict (doc.tensors?.getD []) ≠ [] := by
      cases hls : doc.tensors?.getD [] with
      | nil => rw [hls] at hq; cases hq
      | cons a r => simp [tensorsDict]
    rw [wrapT_ne _ hts_ne]
    refine ⟨tensorsDict (doc.tensors?.getD []), tensorSub q.2, ?_, ?_, ?_, ?_⟩
    · exact dlookup_last _ _ _ h0T
    · exact dlookup_of_mem_nodup (tensorsDict (doc.tensors?.getD []))
        (q.1, Value.vobj (tensorSub q.2)) (List.mem_map.mpr ⟨q, hq, rfl⟩)
        (by rw [tensorsDict_keys]; exact hndt)
    · rw [tensorSub, dlookup_cons, if_pos rfl]
    · rw [tensorSub, dlookup_cons,
        if_neg (show ¬ MARQO_DOC_CHUNKS = MARQO_DOC_EMBEDDINGS by decide),
        dlookup_cons, if_pos rfl]

/-- The wire document `to_vespa_document` produces for `docA` on `idxA`. -/
def wdA : VespaDoc :=
  { fields? := some
      [("marqo__id", .vstr "doc1"),
       ("marqo__lexical_title", .vstr "hello"),
       ("marqo__filter_title", .vstr "hello"),
       ("marqo__filter_active", .vint 1),
       ("rating", .vint 4),
       ("marqo__lexical_caption", .vstr "a cat"),
       ("marqo__chunks_caption", .varr [.vstr "a cat"]),
       ("marqo__embeddings_caption", .vobj [("0", .varr [.vfloat 1, .vfloat 2])]),
       ("marqo__vector_count", .vint 1),
       ("marqo__score_modifiers", .vobj [("rating", .vint 4)])],
    id? := some (.vstr "doc1") }

/-- C1 counterexample: `docA` is accepted by the encoder, yet feeding the
encoder's own output straight back into the decoder fails, because the
encoder writes the embeddings map bare while the decoder only accepts it
under the backend's `blocks` wrapper. -/
theorem round_trip_direct_counterexample :
    to_vespa_document idxA docA = .ok wdA ∧
    (to_vespa_document idxA docA).bind (fun wd => to_marqo_document idxA wd false) =
      .error (.vespaDocParsing "Cannot parse embeddings field marqo__embeddings_caption") := by
  decide

/-- C1 witness: the blocks-mediated round trip on the concrete index and
document. -/
theorem round_trip_via_blocks_witness :
    ∃ md, to_marqo_document idxA (wrapBlocks idxA wdA) false = .ok md ∧
      (∀ p ∈ docA.fields, dlookup md p.1 = some p.2) ∧
      (∀ q ∈ docA.tensors?.getD [],
        ∃ tens sub, dlookup md MARQO_DOC_TENSORS = some (.vobj tens) ∧
          dlookup tens q.1 = some (.vobj sub) ∧
          dlookup sub MARQO_DOC_CHUNKS = some (.varr (q.2.chunks.map .vstr)) ∧
          dlookup sub MARQO_DOC_EMBEDDINGS = some (.varr q.2.embeddings)) :=
  round_trip_via_blocks idxA docA wdA (by decide) (by decide) (by decide) (by decide)

end Marqo
